import Mathlib

/-!
Shallow embedding of `ietfdata/mailarchive.py` (the IETF mail archive
synchronizer and cache) together with proofs about its behaviour.

The embedding models:
* the Python string operations used by `_parse_archive_url` (with Python's
  `find` returning `-1` on a miss and Python slice clamping semantics);
* the per-message normalization performed inside `MailingList.update`
  (Date-header parsing, header flattening, `_clean_email_text`), with the
  external library calls (`email` parsing, charset decoding, BeautifulSoup,
  EmailReplyParser) represented by their observable outcomes;
* the MongoDB `messages` collection, the GridFS blob store and the
  `aa_cache` collection as explicit state, including the unique index on
  `(list, imap_uid)` created by `MailArchive.__init__` and the semantics of
  `ReplaceOne(..., upsert=True)` and `delete_one`;
* the control flow of `MailingList.update` (size check pass, fetch pass,
  batching of staged upserts, final flush) and of the read-side lookups
  (`raw_message`, `message`, `messages`, `message_from_archive_url`,
  `MailArchive.messages`, `MailArchive.message_from_archive_url`).
-/

set_option autoImplicit false

namespace IetfData

/-! ### Python string primitives -/

/-- Python `str.find` helper: index of the first occurrence of `pat` in the
remaining haystack, scanning from offset `i`; `-1` when absent. -/
def pyFindAux (pat : List Char) : List Char → Nat → Int
  | [], i => if pat = [] then (i : Int) else -1
  | c :: t, i =>
    if pat.isPrefixOf (c :: t) then (i : Int) else pyFindAux pat t (i + 1)

/-- Python `s.find(pat)`: offset of the first occurrence, `-1` when absent. -/
def pyFind (s pat : List Char) : Int := pyFindAux pat s 0

/-- Python slice `s[i:]`: for a negative `i` the start is `len(s) + i`
clamped to `0`; for a non-negative `i` it is `i` (clamped to the length by
`List.drop` itself). -/
def pySliceFrom (s : List Char) (i : Int) : List Char :=
  if 0 ≤ i then s.drop i.toNat else s.drop (s.length - (-i).toNat)

/-- Python slice `s[:j]` with the same clamping rules. -/
def pySliceTo (s : List Char) (j : Int) : List Char :=
  if 0 ≤ j then s.take j.toNat else s.take (s.length - (-j).toNat)

/-- Python `str.strip()`: remove leading and trailing whitespace. -/
def pyStrip (s : List Char) : List Char :=
  ((s.dropWhile Char.isWhitespace).reverse.dropWhile Char.isWhitespace).reverse

/-- Python's `in` operator on strings: substring containment. -/
def pyContains (s pat : List Char) : Bool := 0 ≤ pyFind s pat

/-! ### `_parse_archive_url` (mailarchive.py lines 58-65)

```python
def _parse_archive_url(archive_url:str) -> Tuple[str, str]:
    aa_start = archive_url.find("://mailarchive.ietf.org/arch/msg")
    aa_uri   = archive_url[aa_start+33:].strip()
    mailing_list = aa_uri[:aa_uri.find("/")]
    message_hash = aa_uri[aa_uri.find("/")+1:]
    return (mailing_list, message_hash)
```

Note that on an input that does not contain the marker, `find` returns `-1`,
the slice starts at offset `32`, and the function still returns a pair: there
is no failure path anywhere in its body. -/

def archiveUrlMarker : List Char := "://mailarchive.ietf.org/arch/msg".toList

def parseArchiveUrl (archive_url : String) : String × String :=
  let s := archive_url.toList
  let aa_start := pyFind s archiveUrlMarker
  let aa_uri := pyStrip (pySliceFrom s (aa_start + 33))
  let slash := pyFind aa_uri "/".toList
  (String.mk (pySliceTo aa_uri slash), String.mk (pySliceFrom aa_uri (slash + 1)))

/-! ### The message normalizer (mailarchive.py lines 68-80 and 211-231) -/

/-- Observable outcome of `raw_body = email.get_body()` on a parsed message:
the decoded-payload result of `raw_body.get_payload(decode=True)` (Python
`None` is modelled as `none`) and `raw_body.get_content_charset()`. -/
structure PyBody where
  payload : Option (List Nat)
  contentCharset : Option String
deriving Repr, DecidableEq

deriving instance DecidableEq for Except

/-- A Python `email.message.Message` as produced by
`email.message_from_bytes(raw, policy=policy.default)`, represented by the
outcomes of the library calls `MailingList.update` performs on it:
`get_body()` (which may raise), `items()` (guarded by a `try` in the source),
the `Archived-At` header value, the result of
`email.utils.parsedate(e["Date"])` collapsed with the subsequent
`time.mktime`/`datetime.fromtimestamp` conversion into an epoch integer
(`dateParsed = none` models an unparsable or missing Date header), and a flag
recording whether that conversion raises (e.g. `OverflowError` on an
out-of-range tuple). -/
structure PyMessage where
  getBody : Except Unit PyBody
  items : Except Unit (List (String × String))
  archivedAt : Option String
  dateParsed : Option Int
  mktimeFails : Bool
deriving Repr, DecidableEq

/-- Model of the external byte-string decoder (`bytes.decode(charset)`):
succeeds exactly on ASCII payloads (the common subset of every charset the
code passes), fails (raising `UnicodeDecodeError`, here `.error ()`) on any
byte outside the ASCII range — in particular on non-UTF-8 byte sequences. -/
def decodeBytes (bs : List Nat) : Except Unit String :=
  if bs.all (fun b => b < 128) then
    .ok (String.mk (bs.map (fun b => Char.ofNat b)))
  else .error ()

/-- Modelled external collaborator `BeautifulSoup(text, "lxml").text`
(HTML stripping); treated as a black-box total text transformation. -/
def bs4Text (s : String) : String := s

/-- Modelled external collaborator `EmailReplyParser.parse_reply`
(reply-quote stripping); treated as a black-box total text transformation. -/
def parseReply (s : String) : String := s

/-- `_clean_email_text` (lines 68-80): the whole chain runs inside one
`try`, and any failure — `get_body()` raising, `get_payload(decode=True)`
returning `None` (so that `.decode` raises `AttributeError`), or a charset
decoding error — degrades to the empty string. -/
def cleanEmailText (e : PyMessage) : String :=
  match e.getBody with
  | .error _ => ""
  | .ok raw_body =>
    match raw_body.payload with
    | none => ""
    | some clean_text_bytes =>
      let decoded :=
        match raw_body.contentCharset with
        | some _ => decodeBytes clean_text_bytes
        | none => decodeBytes clean_text_bytes
      match decoded with
      | .error _ => ""
      | .ok clean_text => parseReply (bs4Text clean_text)

/-- The timestamp computation of `update` (lines 211-218):

```python
try:
    msg_date = email.utils.parsedate(e["Date"])
    if msg_date is not None:
        timestamp = datetime.fromtimestamp(time.mktime(msg_date))
    else:
        timestamp = None
except:
    timestamp = None
```
-/
def msgTimestamp (e : PyMessage) : Option Int :=
  match e.dateParsed with
  | none => none
  | some d => if e.mktimeFails then none else some d

/-- The header flattening of `update` (lines 219-222): `e.items()` guarded
by a `try` that degrades to the empty table. The Python dict comprehension
`{name: value for name, value in e.items()}` keeps the item list's entries
with last-value-wins lookup; we keep the item list and model dict lookup by
`pyDictGet` below. -/
def msgHeaders (e : PyMessage) : List (String × String) :=
  match e.items with
  | .ok hs => hs
  | .error _ => []

/-- Python `dict.get(k, default=None)` over a dict built from an item list
by successive assignment: the value of the last entry with the given key. -/
def pyDictGet (l : List (String × String)) (k : String) : Option String :=
  (l.reverse.find? (fun p => p.1 = k)).map (fun p => p.2)

/-! ### The Metadata Store, blob store and runtime state -/

/-- Raw message bytes (an IMAP `RFC822` literal / a GridFS blob). -/
abbrev Blob := List Nat

/-- One document of the `messages` collection, with exactly the fields
staged by `update` at lines 223-231: `list`, `imap_uid`, `gridfs_id`,
`size`, `timestamp`, `headers`, `body`.  Note there is no `id` field. -/
structure MsgRecord where
  list : String
  imap_uid : Nat
  gridfs_id : Nat
  size : Nat
  timestamp : Option Int
  headers : List (String × String)
  body : String
deriving Repr, DecidableEq

/-- The MongoDB database (`messages` and `aa_cache` collections) plus the
GridFS blob store, whose object-id allocation is modelled by a fresh
counter `nextBlob`. -/
structure DBState where
  messages : List MsgRecord
  aaCache : List (String × List (String × Nat))
  blobs : List (Nat × Blob)
  nextBlob : Nat
deriving Repr, DecidableEq

/-- The mutable per-list runtime state of a `MailingList` handle:
`_num_messages` and `_archive_urls` (`_list_name` is immutable and is passed
separately as `ln` below). -/
structure MLState where
  numMessages : Nat
  archiveUrls : List (String × Nat)
deriving Repr, DecidableEq

/-- Python dict assignment `d[k] = v` on a dict represented as a
key-ordered association list: replace in place when the key exists,
append otherwise.  Also models `replace_one({..key..}, doc, upsert=True)`
against a collection carrying a unique index on the key. -/
def dictInsert {β : Type} (l : List (String × β)) (k : String) (v : β) :
    List (String × β) :=
  match l with
  | [] => [(k, v)]
  | (k', v') :: t => if k' = k then (k, v) :: t else (k', v') :: dictInsert t k v

/-- Does a record carry the composite key `(l, i)` of the unique index
created at mailarchive.py line 291? -/
def isKey (l : String) (i : Nat) (r : MsgRecord) : Bool :=
  r.list == l && r.imap_uid == i

/-- Number of stored records carrying the composite key `(l, i)`. -/
def KeyCount (msgs : List MsgRecord) (l : String) (i : Nat) : Nat :=
  msgs.countP (isKey l i)

/-- The cache invariant guaranteed by the unique index on
`(list, imap_uid)`: at most one stored record per key. -/
def UniqueKeys (msgs : List MsgRecord) : Prop :=
  ∀ l i, KeyCount msgs l i ≤ 1

/-- The dict comprehension at line 188,
`{msg["imap_uid"] : msg for msg in find({"list": ln})}`, as a lookup
function: the *last* record of the list with the given `imap_uid` wins
(later dict assignments overwrite earlier ones). -/
def cachedLookup (msgs : List MsgRecord) (ln : String) (uid : Nat) :
    Option MsgRecord :=
  ((msgs.filter (fun r => r.list == ln)).reverse).find?
    (fun r => r.imap_uid == uid)

/-- `fs.put(bytes)` (line 205): store a blob under a fresh object id. -/
def fsPut (db : DBState) (raw : Blob) : Nat × DBState :=
  (db.nextBlob,
   { db with blobs := db.blobs ++ [(db.nextBlob, raw)],
             nextBlob := db.nextBlob + 1 })

/-- `fs.get(ref).read()`: the stored bytes, when the blob exists. -/
def fsGet (db : DBState) (ref : Nat) : Option Blob :=
  (db.blobs.find? (fun b => b.1 == ref)).map (fun b => b.2)

/-! ### The remote IMAP mailbox -/

/-- One message of the remote mailbox: its raw `RFC822` bytes together with
the outcome of parsing them with `email.message_from_bytes` (the parse is an
external deterministic library call, so we carry its result alongside the
bytes).  The server's `RFC822.SIZE` for the message is `raw.length`, as the
IMAP protocol defines it. -/
structure RemoteMsg where
  raw : Blob
  parsed : PyMessage
deriving Repr, DecidableEq

/-- The remote mailbox: `imap.search()` returns the uids in this order and
`imap.fetch` returns a dict over the requested uids. -/
abbrev Remote := List (Nat × RemoteMsg)

def lookupRemote (remote : Remote) (uid : Nat) : Option RemoteMsg :=
  (remote.find? (fun p => p.1 == uid)).map (fun p => p.2)

/-! ### `MailingList.update` (lines 175-254) -/

/-- The Python exceptions the modelled code paths can raise.  The source
defines no exception classes of its own (in particular there is no
`NotFoundError` and no `MalformedURLError` anywhere in the repository);
these constructors name the built-in exceptions actually reachable. -/
inductive PyErr where
  | unboundLocalError
  | attributeError
  | keyError
  | assertionError
  | runtimeError
  | noFile
  | bulkWriteError
  | externalHttp
deriving Repr, DecidableEq

/-- Lines 198-199 of the size-mismatch branch:

```python
cache_file = self._fs.get(cached_messages[msg_id]["gridfs_id"])
cache_file.delete()
```

`GridFS.get` returns a `GridOut` read handle when the blob exists (and
raises `gridfs.errors.NoFile` otherwise).  `GridOut` has no `delete`
method — deletion is `GridFS.delete(file_id)` — and its `__getattr__`
falls back to the fields of the stored file document, which hold no
`delete` either, so the call raises `AttributeError`.  Either way the
statement raises, and `update()` aborts before the `delete_one` of
line 200; nothing is deleted.  The pair of statements always raises, so it
is modelled as the exception it produces. -/
def gridOutDelete (db : DBState) (ref : Nat) : PyErr :=
  match fsGet db ref with
  | none => .noFile
  | some _ => .attributeError

/-- First pass of `update` (lines 188-201): iterate over
`imap.fetch(msg_list, "RFC822.SIZE")`, comparing each remote size against
the `cached_messages` snapshot taken once at line 188.  A uid absent from
the snapshot is marked to-fetch; a uid whose cached size matches is
skipped; a uid whose cached size differs aborts the whole pass — the
blob-deletion attempt of lines 198-199 raises (`gridOutDelete`), the
exception propagates out of `update`, and the store is left untouched (the
pass performs no writes before the raise).  On success, returns the
to-fetch list (`msg_fetch`, in mailbox order); the store is unchanged. -/
def sizeCheck (ln : String) (cached : Nat → Option MsgRecord) :
    Remote → DBState → Except PyErr (List Nat)
  | [], _ => .ok []
  | (msg_id, m) :: rest, db =>
    match cached msg_id with
    | none =>
      match sizeCheck ln cached rest db with
      | .error e => .error e
      | .ok f => .ok (msg_id :: f)
    | some cm =>
      if cm.size ≠ m.raw.length then
        .error (gridOutDelete db cm.gridfs_id)
      else
        sizeCheck ln cached rest db

/-- The normalized record staged at lines 223-231 for one fetched message:
stored size is `len(msg[b"RFC822"])`, the timestamp and headers degrade per
`msgTimestamp`/`msgHeaders`, the body comes from `_clean_email_text`. -/
def normalizeMessage (ln : String) (msg_id : Nat) (cache_file_id : Nat)
    (raw : Blob) (e : PyMessage) : MsgRecord :=
  { list := ln
  , imap_uid := msg_id
  , gridfs_id := cache_file_id
  , size := raw.length
  , timestamp := msgTimestamp e
  , headers := msgHeaders e
  , body := cleanEmailText e }

/-- One `ReplaceOne({"list": l, "id": uid}, doc, upsert=True)` (line 223)
applied to the `messages` collection.  The stored documents carry the
fields listed in `MsgRecord` — `list` and `imap_uid`, but no `id` field —
so the filter `{"list": l, "id": uid}` matches no stored document and the
operation always takes the upsert-insert path; the insert is checked
against the unique index on `(list, imap_uid)` (line 291) and the write
fails with a duplicate-key error when a record with the same key already
exists. -/
def replaceOneUpsert (msgs : List MsgRecord) (doc : MsgRecord) :
    Except Unit (List MsgRecord) :=
  if msgs.any (isKey doc.list doc.imap_uid) then .error ()
  else .ok (msgs ++ [doc])

/-- `db.messages.bulk_write(cache_replaces)` (lines 234 and 248). -/
def bulkWrite : List MsgRecord → List MsgRecord → Except Unit (List MsgRecord)
  | [], msgs => .ok msgs
  | doc :: ops, msgs =>
    match replaceOneUpsert msgs doc with
    | .error e => .error e
    | .ok msgs' => bulkWrite ops msgs'

/-- Lines 207-209: when the fetched message carries an `Archived-At`
header, record `contentHash → sequenceId` in the in-memory index. -/
def archiveUrlStep (ml : MLState) (msg_id : Nat) (e : PyMessage) : MLState :=
  match e.archivedAt with
  | some aa =>
    { ml with archiveUrls := dictInsert ml.archiveUrls (parseArchiveUrl aa).2 msg_id }
  | none => ml

/-- Line 210: `self._num_messages += 1`. -/
def bumpCount (ml : MLState) : MLState :=
  { ml with numMessages := ml.numMessages + 1 }

/-- Second pass of `update` (lines 203-243): fetch the full bytes of every
to-fetch uid, store the blob, update the in-memory archive-URL index from
the `Archived-At` header, bump `_num_messages`, stage the normalized record,
flush the staged batch whenever it exceeds 1000 entries
(`if len(cache_replaces) > 1000`), and append the uid to `new_msgs`.
The wall-clock IMAP keepalive (lines 237-241) performs no state change and
is not modelled.  Returns the final store, list state, still-staged batch,
`new_msgs`, and the sizes of the intermediate `bulk_write` calls issued; a
failing `bulk_write` raises `BulkWriteError`, modelled as an error carrying
the store and list state as the exception leaves them (blobs already put,
messages as of the last successful flush, counter already bumped). -/
def fetchPhase (remote : Remote) (ln : String) :
    List Nat → DBState → MLState → List MsgRecord → List Nat → List Nat →
    Except (PyErr × DBState × MLState)
      (DBState × MLState × List MsgRecord × List Nat × List Nat)
  | [], db, ml, staged, newMsgs, flushes => .ok (db, ml, staged, newMsgs, flushes)
  | msg_id :: rest, db, ml, staged, newMsgs, flushes =>
    match lookupRemote remote msg_id with
    | none => fetchPhase remote ln rest db ml staged newMsgs flushes
    | some m =>
      let db1 := (fsPut db m.raw).2
      let ml2 := bumpCount (archiveUrlStep ml msg_id m.parsed)
      let doc := normalizeMessage ln msg_id (fsPut db m.raw).1 m.raw m.parsed
      let staged1 := staged ++ [doc]
      if staged1.length > 1000 then
        match bulkWrite staged1 db1.messages with
        | .error _ => .error (.bulkWriteError, db1, ml2)
        | .ok msgs' =>
          fetchPhase remote ln rest { db1 with messages := msgs' } ml2 []
            (newMsgs ++ [msg_id]) (flushes ++ [staged1.length])
      else
        fetchPhase remote ln rest db1 ml2 staged1 (newMsgs ++ [msg_id]) flushes

/-- `MailingList.update` (lines 175-254) against a remote mailbox state:
size-check pass (which aborts on the first size mismatch, leaving the
store untouched — see `sizeCheck`), then — only when `msg_fetch` is
non-empty — the fetch pass followed by persisting the archive-URL index
into `aa_cache` (line 245, a `replace_one(..., upsert=True)` keyed by
list), then the final flush of any still-staged batch (lines 247-248).
On success, returns the new store, the new list state, `new_msgs`, and the
sizes of all `bulk_write` calls issued (in order); on an uncaught
exception, the error carries the exception together with the store and
list state as the exception leaves them (for a size-check abort, exactly
the input state: that pass writes nothing before raising). -/
def update (ln : String) (db : DBState) (ml : MLState) (remote : Remote) :
    Except (PyErr × DBState × MLState)
      (DBState × MLState × List Nat × List Nat) :=
  match sizeCheck ln (cachedLookup db.messages ln) remote db with
  | .error e => .error (e, db, ml)
  | .ok msg_fetch =>
    if msg_fetch.length > 0 then
      match fetchPhase remote ln msg_fetch db ml [] [] [] with
      | .error e => .error e
      | .ok (db2, ml2, staged, new_msgs, flushes) =>
        let db3 := { db2 with aaCache := dictInsert db2.aaCache ln ml2.archiveUrls }
        if staged.length > 0 then
          match bulkWrite staged db3.messages with
          | .error _ => .error (.bulkWriteError, db3, ml2)
          | .ok msgs' =>
            .ok ({ db3 with messages := msgs' }, ml2, new_msgs,
                 flushes ++ [staged.length])
        else .ok (db3, ml2, new_msgs, flushes)
    else
      .ok (db, ml, [], [])

/-- Iterated synchronization runs of the same list against a sequence of
remote mailbox states, threading the store and the handle state.  A run
that raises stops the sequence; the caller is left with the store and list
state as the exception left them, so the fold is total and always yields
the final observable state (plus the terminating exception, if any). -/
def updateRuns (ln : String) :
    List Remote → DBState → MLState → DBState × MLState × Option PyErr
  | [], db, ml => (db, ml, none)
  | remote :: rest, db, ml =>
    match update ln db ml remote with
    | .error (e, db', ml') => (db', ml', some e)
    | .ok (db', ml', _, _) => updateRuns ln rest db' ml'

/-! ### The read-side query surface -/

/-- The `MailingListMessage` dataclass (lines 84-93), with the optional
fields produced by `dict.get` lookups modelled as `Option`. -/
structure MailingListMessage where
  list_name : String
  message_id : Option String
  from_addr : Option String
  subject : Option String
  date : Option Int
  in_reply_to : Option String
  references : Option String
  body : String
deriving Repr, DecidableEq

/-- `find_one({"list": ln, "imap_uid": uid})`: first matching document. -/
def findOneMessage (msgs : List MsgRecord) (ln : String) (uid : Nat) :
    Option MsgRecord :=
  msgs.find? (isKey ln uid)

/-- `MailingList.raw_message` (lines 137-141):

```python
cache_metadata = self._db.messages.find_one({"list": ..., "imap_uid": msg_id})
if cache_metadata:
    message = email.message_from_bytes(self._fs.get(...).read(), ...)
return message
```

When `find_one` misses, the local `message` is never assigned and the
`return message` raises `UnboundLocalError`.  When it hits, the raw bytes
are read back from GridFS (`gridfs.NoFile` if the blob is absent) and
re-parsed; we represent the parsed `Message` object by its raw bytes. -/
def rawMessage (db : DBState) (ln : String) (msg_id : Nat) : Except PyErr Blob :=
  match findOneMessage db.messages ln msg_id with
  | some cache_metadata =>
    match fsGet db cache_metadata.gridfs_id with
    | some raw => .ok raw
    | none => .error .noFile
  | none => .error .unboundLocalError

/-- `MailingList.message` (lines 156-157):
`return MailingListMessage(self.raw_message(msg_id), self._msg_metadata[msg_id])`.
The constructor arguments are evaluated left to right: `raw_message` runs
first (and may itself raise), and then the access to `self._msg_metadata`
always raises `AttributeError`, because `_msg_metadata` is only a class-body
annotation (line 102) — `__init__` (lines 105-126) never assigns it. -/
def message (db : DBState) (ln : String) (msg_id : Nat) :
    Except PyErr MailingListMessage :=
  match rawMessage db ln msg_id with
  | .error e => .error e
  | .ok _ => .error .attributeError

/-- `MailingList.message_from_archive_url` (lines 150-153): re-parse the
URL, `assert` the list name matches, look the content hash up in the
in-memory `_archive_urls` dict (raising `KeyError` when absent), and
delegate to the point lookup `self.message`. -/
def mlMessageFromArchiveUrl (db : DBState) (ln : String) (ml : MLState)
    (archive_url : String) : Except PyErr MailingListMessage :=
  let q := parseArchiveUrl archive_url
  if q.1 ≠ ln then .error .assertionError
  else
    match (ml.archiveUrls.find? (fun p => p.1 == q.2)).map (fun p => p.2) with
    | none => .error .keyError
    | some msg_id => message db ln msg_id

/-- `strptime("1970-01-01T00:00:00", ...)`, the default `since` bound. -/
def defaultSince : Int := 0

/-- `strptime("2038-01-19T03:14:07", ...)`, the default `until` bound. -/
def defaultUntil : Int := 2147483647

/-- The Mongo filter `{"timestamp": {"$gt": since, "$lt": until}}`: a
record matches exactly when it has a (non-null) timestamp lying strictly
between the bounds; a BSON `null` timestamp (unparsable Date header) never
satisfies a `$gt`/`$lt` comparison against a date. -/
def tsMatches (ts : Option Int) (since until' : Int) : Bool :=
  match ts with
  | some t => since < t && t < until'
  | none => false

/-- `MailingList.messages` (lines 160-172).  Constructing the first yielded
`MailingListMessage` raises: the third constructor argument
`message["headers"]["From"]` raises `KeyError` when that header is absent,
and otherwise the fourth argument's default expression
`message["headers".get("subject", None)]` (line 168) calls `.get` on the
*string literal* `"headers"`, which raises `AttributeError`.  The result is
the list of successfully yielded messages (always empty) paired with the
error, if any, that terminated the generator.  `strptime` parsing of the
ISO `since`/`until` argument strings is modelled by taking the parsed
timestamps directly. -/
def mlMessages (db : DBState) (ln : String) (since until' : Int) :
    List MailingListMessage × Option PyErr :=
  match db.messages.filter
      (fun r => r.list == ln && tsMatches r.timestamp since until') with
  | [] => ([], none)
  | r :: _ =>
    ([], some (if (pyDictGet r.headers "From").isSome
               then PyErr.attributeError else PyErr.keyError))

/-- The `MailingListMessage` yielded by `MailArchive.messages` for one
matching record (lines 356-363), including the `.get` fallbacks between
the capitalized and lower-case header names. -/
def yieldArchiveMessage (r : MsgRecord) : MailingListMessage :=
  { list_name := r.list
  , message_id := (pyDictGet r.headers "Message-ID").orElse
      (fun _ => pyDictGet r.headers "Message-Id")
  , from_addr := (pyDictGet r.headers "From").orElse
      (fun _ => pyDictGet r.headers "from")
  , subject := (pyDictGet r.headers "Subject").orElse
      (fun _ => pyDictGet r.headers "subject")
  , date := r.timestamp
  , in_reply_to := pyDictGet r.headers "In-Reply-To"
  , references := pyDictGet r.headers "References"
  , body := r.body }

/-- `MailArchive.messages` (lines 351-363): the cross-list range query,
yielding one normalized view per record matching the timestamp filter. -/
def archiveMessages (db : DBState) (since until' : Int) :
    List MailingListMessage :=
  (db.messages.filter (fun r => tsMatches r.timestamp since until')).map
    yieldArchiveMessage

/-- `MailingList.__init__` (lines 105-126): count the cached records and
rebuild the archived-at index — from the persisted `aa_cache` document when
one exists, otherwise by scanning `self.messages()` and persisting the
result.  In the scan path, producing the first matching message raises
inside `messages()` (see `mlMessages`), so the rebuild only completes on an
empty scan, leaving an empty index that is then persisted. -/
def initMailingList (db : DBState) (ln : String) :
    Except PyErr (DBState × MLState) :=
  let num := (db.messages.filter (fun r => r.list == ln)).length
  match (db.aaCache.find? (fun p => p.1 == ln)).map (fun p => p.2) with
  | some aa => .ok (db, { numMessages := num, archiveUrls := aa })
  | none =>
    match mlMessages db ln defaultSince defaultUntil with
    | (_, some e) => .error e
    | (_, none) =>
      .ok ({ db with aaCache := dictInsert db.aaCache ln [] },
           { numMessages := num, archiveUrls := [] })

/-- The `MailArchive` handle: the store plus the `_mailing_lists` dict. -/
structure ArchiveState where
  db : DBState
  mailingLists : List (String × MLState)

/-- `MailArchive.mailing_list` (lines 308-311) composed with
`MailArchive.message_from_archive_url` (lines 314-329).  The legacy-URL
branch issues a live HTTP redirect resolution (`requests.get`), which is
outside the model and represented as `externalHttp`; a URL containing
neither marker raises `RuntimeError`; the canonical branch parses the list
name and delegates to that list's `message_from_archive_url`. -/
def archiveMessageFromUrl (a : ArchiveState) (archive_url : String) :
    Except PyErr MailingListMessage :=
  if pyContains archive_url.toList "//www.ietf.org/mail-archive/web/".toList then
    .error .externalHttp
  else if pyContains archive_url.toList "//mailarchive.ietf.org/arch/msg".toList then
    let list_name := (parseArchiveUrl archive_url).1
    match (a.mailingLists.find? (fun p => p.1 == list_name)).map (fun p => p.2) with
    | some ml => mlMessageFromArchiveUrl a.db list_name ml archive_url
    | none =>
      match initMailingList a.db list_name with
      | .error e => .error e
      | .ok (db', ml) => mlMessageFromArchiveUrl db' list_name ml archive_url
  else
    .error .runtimeError

/-! ### Derived descriptions of `update`'s batching behaviour -/

/-- The sizes of the intermediate `bulk_write` calls issued by the fetch
loop when it stages one record per message, starting from a staged batch of
size `s`: the guard `len(cache_replaces) > 1000` fires when the batch
reaches 1001 entries. -/
def batchSizes : Nat → Nat → List Nat
  | _, 0 => []
  | s, n + 1 => if s + 1 > 1000 then (s + 1) :: batchSizes 0 n else batchSizes (s + 1) n

/-- The size of the still-staged batch after the fetch loop, starting from
a staged batch of size `s` and processing `n` messages. -/
def stagedLen : Nat → Nat → Nat
  | s, 0 => s
  | s, n + 1 => if s + 1 > 1000 then stagedLen 0 n else stagedLen (s + 1) n

/-- The complete sequence of `bulk_write` sizes issued by one `update` run
that fetches `n` messages: the intermediate flushes followed by the final
flush of the remainder (lines 247-248), which is skipped when empty. -/
def finalFlushes (n : Nat) : List Nat :=
  batchSizes 0 n ++ (if stagedLen 0 n > 0 then [stagedLen 0 n] else [])

/-- On a size-check pass that completes (no size mismatch, hence no
raise), an entry is marked to-fetch exactly when its uid is absent from
the `cached_messages` snapshot. -/
def uncachedPred (cached : Nat → Option MsgRecord) (em : Nat × RemoteMsg) : Bool :=
  (cached em.1).isNone

/-- The object ids currently present in the blob store. -/
def blobIds (db : DBState) : List Nat := db.blobs.map (fun b => b.1)

/-- The composite key of a stored record. -/
def recKey (r : MsgRecord) : String × Nat := (r.list, r.imap_uid)

/-! ### Concrete scenario states used by witnesses and counterexamples -/

/-- A minimal parsed email: `get_body()` raises, no interesting headers. -/
def trivParsed : PyMessage :=
  { getBody := .error (), items := .ok [], archivedAt := none,
    dateParsed := none, mktimeFails := false }

/-- A remote message whose raw bytes are `n` copies of `65` (`"A"`). -/
def trivRemoteMsg (n : Nat) : RemoteMsg :=
  { raw := List.replicate n 65, parsed := trivParsed }

def dbEmpty : DBState := { messages := [], aaCache := [], blobs := [], nextBlob := 0 }

def mlEmpty : MLState := { numMessages := 0, archiveUrls := [] }

/-- A two-message remote mailbox. -/
def remoteA : Remote := [(1, trivRemoteMsg 5), (2, trivRemoteMsg 7)]

/-- A remote mailbox with `n` fresh messages with empty bodies. -/
def freshRemote (n : Nat) : Remote :=
  (List.range n).map (fun i => (i, { raw := [], parsed := trivParsed }))

/-- The spec's size-mismatch scenario (scaled down so concrete kernel
evaluation stays shallow): a cached record for sequence id 42 with stored
size 10 and blob id 0, against a remote now reporting size 12. -/
def rec42 : MsgRecord :=
  { list := "example-list", imap_uid := 42, gridfs_id := 0, size := 10,
    timestamp := none, headers := [], body := "" }

def db42 : DBState :=
  { messages := [rec42], aaCache := [], blobs := [(0, List.replicate 10 65)],
    nextBlob := 1 }

def ml42 : MLState := { numMessages := 1, archiveUrls := [] }

/-- The same message on the remote, now of size 12. -/
def remote42 : Remote := [(42, trivRemoteMsg 12)]

/-- A store holding one message of `example-list` with sequence id 7 and
blob id 0, whose permalink hash is `abc123` (for the lookup claims). -/
def rec7 : MsgRecord :=
  { list := "example-list", imap_uid := 7, gridfs_id := 0, size := 3,
    timestamp := some 100,
    headers := [("From", "a@example.com"),
                ("Archived-At", "<https://mailarchive.ietf.org/arch/msg/example-list/abc123>")],
    body := "hi" }

def db7 : DBState :=
  { messages := [rec7], aaCache := [("example-list", [("abc123", 7)])],
    blobs := [(0, [104, 105, 10])], nextBlob := 1 }

def ml7 : MLState := { numMessages := 1, archiveUrls := [("abc123", 7)] }

def archive7 : ArchiveState := { db := db7, mailingLists := [("example-list", ml7)] }

/-- The store after one `update` run of `remoteA` from the empty store. -/
def dbAfterA : DBState :=
  { messages :=
      [{ list := "l", imap_uid := 1, gridfs_id := 0, size := 5,
         timestamp := none, headers := [], body := "" },
       { list := "l", imap_uid := 2, gridfs_id := 1, size := 7,
         timestamp := none, headers := [], body := "" }],
    aaCache := [("l", [])],
    blobs := [(0, List.replicate 5 65), (1, List.replicate 7 65)],
    nextBlob := 2 }

def mlAfterA : MLState := { numMessages := 2, archiveUrls := [] }

/-! ### Basic lemmas about keys, counts and deletion -/

theorem isKey_iff {l : String} {i : Nat} {r : MsgRecord} :
    isKey l i r = true ↔ r.list = l ∧ r.imap_uid = i := by
  simp [isKey]

theorem keyCount_nil (l : String) (i : Nat) : KeyCount [] l i = 0 := rfl

theorem keyCount_append (a b : List MsgRecord) (l : String) (i : Nat) :
    KeyCount (a ++ b) l i = KeyCount a l i + KeyCount b l i :=
  List.countP_append _ _ _

theorem keyCount_eq_zero {msgs : List MsgRecord} {l : String} {i : Nat} :
    KeyCount msgs l i = 0 ↔ ∀ r ∈ msgs, ¬(r.list = l ∧ r.imap_uid = i) := by
  simp [KeyCount, List.countP_eq_zero, isKey_iff]

theorem keyCount_pos {msgs : List MsgRecord} {l : String} {i : Nat} :
    0 < KeyCount msgs l i ↔ ∃ r ∈ msgs, r.list = l ∧ r.imap_uid = i := by
  simp [KeyCount, List.countP_pos_iff, isKey_iff]

theorem keyCount_cons (r : MsgRecord) (t : List MsgRecord) (l : String) (i : Nat) :
    KeyCount (r :: t) l i = KeyCount t l i + (if isKey l i r then 1 else 0) :=
  List.countP_cons _ _ _

theorem keyCount_le_of_sublist {a b : List MsgRecord} (h : a.Sublist b)
    (l : String) (i : Nat) : KeyCount a l i ≤ KeyCount b l i :=
  h.countP_le _

theorem uniqueKeys_of_sublist {a b : List MsgRecord} (h : a.Sublist b)
    (hb : UniqueKeys b) : UniqueKeys a :=
  fun l i => le_trans (keyCount_le_of_sublist h l i) (hb l i)

theorem uniqueKeys_nil : UniqueKeys [] := fun _ _ => by simp [KeyCount]

theorem uniqueKeys_of_nodup_keys :
    ∀ {msgs : List MsgRecord}, (msgs.map recKey).Nodup → UniqueKeys msgs := by
  intro msgs h l i
  induction msgs with
  | nil => simp [KeyCount]
  | cons r t ih =>
    rw [List.map_cons, List.nodup_cons] at h
    have hcons := keyCount_cons r t l i
    by_cases hk : isKey l i r = true
    · have hri := isKey_iff.mp hk
      have ht0 : KeyCount t l i = 0 := by
        rw [keyCount_eq_zero]
        intro x hx hxk
        exact h.1 (by
          rw [List.mem_map]
          exact ⟨x, hx, by simp [recKey, hxk.1, hxk.2, hri.1, hri.2]⟩)
      rw [hcons, ht0, if_pos hk]
    · rw [hcons, if_neg hk]
      have := ih h.2
      omega

theorem two_le_length_of_mem {α : Type} [DecidableEq α] {l : List α} {a b : α}
    (ha : a ∈ l) (hb : b ∈ l) (hab : a ≠ b) : 2 ≤ l.length := by
  have hsub : ({a, b} : Finset α) ⊆ l.toFinset := by
    intro x hx
    rcases Finset.mem_insert.mp hx with rfl | hx
    · exact List.mem_toFinset.mpr ha
    · rw [Finset.mem_singleton] at hx
      subst hx
      exact List.mem_toFinset.mpr hb
  calc 2 = ({a, b} : Finset α).card := (Finset.card_pair hab).symm
    _ ≤ l.toFinset.card := Finset.card_le_card hsub
    _ ≤ l.length := l.toFinset_card_le

theorem two_le_keyCount {msgs : List MsgRecord} {ln : String} {uid : Nat}
    {a b : MsgRecord} (ha : a ∈ msgs) (hb : b ∈ msgs) (hab : a ≠ b)
    (hka : isKey ln uid a = true) (hkb : isKey ln uid b = true) :
    2 ≤ KeyCount msgs ln uid := by
  have ha' : a ∈ msgs.filter (isKey ln uid) := List.mem_filter.mpr ⟨ha, hka⟩
  have hb' : b ∈ msgs.filter (isKey ln uid) := List.mem_filter.mpr ⟨hb, hkb⟩
  have h2 := two_le_length_of_mem ha' hb' hab
  rwa [KeyCount, List.countP_eq_length_filter]

/-! ### Lemmas about `cachedLookup` -/

theorem cachedLookup_eq_none_iff {msgs : List MsgRecord} {ln : String} {uid : Nat} :
    cachedLookup msgs ln uid = none ↔ KeyCount msgs ln uid = 0 := by
  rw [keyCount_eq_zero, cachedLookup, List.find?_eq_none]
  constructor
  · intro h r hr hk
    have : r ∈ (msgs.filter (fun r => r.list == ln)).reverse := by
      rw [List.mem_reverse, List.mem_filter]
      exact ⟨hr, by simp [hk.1]⟩
    exact h r this (by simp [hk.2])
  · intro h r hr hk
    rw [List.mem_reverse, List.mem_filter] at hr
    exact h r hr.1 ⟨by simpa using hr.2, by simpa using hk⟩

theorem cachedLookup_some {msgs : List MsgRecord} {ln : String} {uid : Nat}
    {r : MsgRecord} (h : cachedLookup msgs ln uid = some r) :
    r ∈ msgs ∧ r.list = ln ∧ r.imap_uid = uid := by
  have h1 := List.find?_some h
  have h2 := List.mem_of_find?_eq_some h
  rw [List.mem_reverse, List.mem_filter] at h2
  exact ⟨h2.1, by simpa using h2.2, by simpa using h1⟩

theorem cachedLookup_eq_some_of_unique {msgs : List MsgRecord} {ln : String}
    {uid : Nat} {r : MsgRecord} (hu : UniqueKeys msgs) (hm : r ∈ msgs)
    (hl : r.list = ln) (hi : r.imap_uid = uid) :
    cachedLookup msgs ln uid = some r := by
  cases hfind : cachedLookup msgs ln uid with
  | none =>
    rw [cachedLookup_eq_none_iff] at hfind
    have hpos : 0 < KeyCount msgs ln uid := keyCount_pos.mpr ⟨r, hm, hl, hi⟩
    omega
  | some r' =>
    obtain ⟨hm', hl', hi'⟩ := cachedLookup_some hfind
    by_cases he : r' = r
    · rw [he]
    · exfalso
      have h2 : 2 ≤ KeyCount msgs ln uid :=
        two_le_keyCount hm' hm he (isKey_iff.mpr ⟨hl', hi'⟩) (isKey_iff.mpr ⟨hl, hi⟩)
      have := hu ln uid
      omega

/-! ### Lemmas about the size-check pass -/

theorem sizeCheck_cons_none {ln : String} {cached : Nat → Option MsgRecord}
    {msg_id : Nat} {m : RemoteMsg} (rest : Remote) (db : DBState)
    (hc : cached msg_id = none) :
    sizeCheck ln cached ((msg_id, m) :: rest) db =
      match sizeCheck ln cached rest db with
      | .error e => .error e
      | .ok f => .ok (msg_id :: f) := by
  simp [sizeCheck, hc]

theorem sizeCheck_cons_skip {ln : String} {cached : Nat → Option MsgRecord}
    {msg_id : Nat} {m : RemoteMsg} {cm : MsgRecord} (rest : Remote)
    (db : DBState) (hc : cached msg_id = some cm)
    (hsz : cm.size = m.raw.length) :
    sizeCheck ln cached ((msg_id, m) :: rest) db =
      sizeCheck ln cached rest db := by
  simp [sizeCheck, hc, hsz]

theorem sizeCheck_cons_mismatch {ln : String} {cached : Nat → Option MsgRecord}
    {msg_id : Nat} {m : RemoteMsg} {cm : MsgRecord} (rest : Remote)
    (db : DBState) (hc : cached msg_id = some cm)
    (hsz : cm.size ≠ m.raw.length) :
    sizeCheck ln cached ((msg_id, m) :: rest) db =
      .error (gridOutDelete db cm.gridfs_id) := by
  simp [sizeCheck, hc, hsz]

/-- When no cached remote id has a changed size, the size-check pass
completes and marks exactly the uncached ids to-fetch, in mailbox order. -/
theorem sizeCheck_ok_intro (ln : String) (cached : Nat → Option MsgRecord) :
    ∀ (remote : Remote) (db : DBState),
      (∀ u m cm, (u, m) ∈ remote → cached u = some cm → cm.size = m.raw.length) →
      sizeCheck ln cached remote db =
        .ok ((remote.filter (uncachedPred cached)).map Prod.fst) := by
  intro remote
  induction remote with
  | nil => intro db _; rfl
  | cons em rest ih =>
    obtain ⟨msg_id, m⟩ := em
    intro db hnm
    have hrest : ∀ u m' cm, (u, m') ∈ rest → cached u = some cm →
        cm.size = m'.raw.length :=
      fun u m' cm hu => hnm u m' cm (List.mem_cons_of_mem _ hu)
    cases hc : cached msg_id with
    | none =>
      have hp : uncachedPred cached (msg_id, m) = true := by
        simp [uncachedPred, hc]
      rw [sizeCheck_cons_none rest db hc, ih db hrest, List.filter_cons, hp]
      simp
    | some cm =>
      have hsz : cm.size = m.raw.length :=
        hnm msg_id m cm (List.mem_cons_self _ _) hc
      have hp : uncachedPred cached (msg_id, m) = false := by
        simp [uncachedPred, hc]
      rw [sizeCheck_cons_skip rest db hc hsz, ih db hrest, List.filter_cons, hp]
      simp

/-- Conversely, a completing size-check pass certifies that every cached
remote id had a matching size, and its to-fetch list is exactly the
uncached ids. -/
theorem sizeCheck_ok_elim (ln : String) (cached : Nat → Option MsgRecord) :
    ∀ (remote : Remote) (db : DBState) (fetch : List Nat),
      sizeCheck ln cached remote db = .ok fetch →
      (∀ u m cm, (u, m) ∈ remote → cached u = some cm → cm.size = m.raw.length) ∧
      fetch = (remote.filter (uncachedPred cached)).map Prod.fst := by
  intro remote
  induction remote with
  | nil =>
    intro db fetch h
    injection h with h
    subst h
    exact ⟨fun u m cm hu => absurd hu (List.not_mem_nil _), rfl⟩
  | cons em rest ih =>
    obtain ⟨msg_id, m⟩ := em
    intro db fetch h
    cases hc : cached msg_id with
    | none =>
      rw [sizeCheck_cons_none rest db hc] at h
      cases hrec : sizeCheck ln cached rest db with
      | error e =>
        rw [hrec] at h
        cases h
      | ok f =>
        rw [hrec] at h
        injection h with h
        subst h
        obtain ⟨hnm', hf⟩ := ih db f hrec
        constructor
        · intro u m' cm hu hcu
          rcases List.mem_cons.mp hu with heq | hu'
          · injection heq with h1 h2
            subst h1
            rw [hc] at hcu
            cases hcu
          · exact hnm' u m' cm hu' hcu
        · have hp : uncachedPred cached (msg_id, m) = true := by
            simp [uncachedPred, hc]
          rw [List.filter_cons, hp, hf]
          simp
    | some cm =>
      by_cases hsz : cm.size = m.raw.length
      · rw [sizeCheck_cons_skip rest db hc hsz] at h
        obtain ⟨hnm', hf⟩ := ih db fetch h
        constructor
        · intro u m' cm' hu hcu
          rcases List.mem_cons.mp hu with heq | hu'
          · injection heq with h1 h2
            subst h1
            subst h2
            rw [hc] at hcu
            injection hcu with hcu
            rw [← hcu]
            exact hsz
          · exact hnm' u m' cm' hu' hcu
        · have hp : uncachedPred cached (msg_id, m) = false := by
            simp [uncachedPred, hc]
          rw [List.filter_cons, hp]
          exact hf
      · rw [sizeCheck_cons_mismatch rest db hc hsz] at h
        cases h

/-- Every id in the to-fetch list of a completing size-check pass is
absent from the snapshot and present on the remote. -/
theorem mem_fetch_uncached {cached : Nat → Option MsgRecord} {remote : Remote}
    {u : Nat} (hu : u ∈ (remote.filter (uncachedPred cached)).map Prod.fst) :
    cached u = none ∧ ∃ m, (u, m) ∈ remote := by
  obtain ⟨em, hem, heq⟩ := List.mem_map.mp hu
  obtain ⟨u', m'⟩ := em
  obtain ⟨hmem, hpred⟩ := List.mem_filter.mp hem
  cases heq
  rw [uncachedPred] at hpred
  exact ⟨Option.isNone_iff_eq_none.mp (by simpa using hpred), m', hmem⟩

/-! ### Lemmas about `fsPut` and `bulkWrite` -/

theorem fsPut_fst (db : DBState) (raw : Blob) : (fsPut db raw).1 = db.nextBlob := rfl

theorem fsPut_messages (db : DBState) (raw : Blob) :
    (fsPut db raw).2.messages = db.messages := rfl

theorem fsPut_nextBlob (db : DBState) (raw : Blob) :
    (fsPut db raw).2.nextBlob = db.nextBlob + 1 := rfl

theorem fsPut_aaCache (db : DBState) (raw : Blob) :
    (fsPut db raw).2.aaCache = db.aaCache := rfl

theorem blobIds_fsPut (db : DBState) (raw : Blob) :
    blobIds (fsPut db raw).2 = blobIds db ++ [db.nextBlob] := by
  simp [blobIds, fsPut]

theorem keyCount_singleton (doc : MsgRecord) (l : String) (i : Nat) :
    KeyCount [doc] l i = if isKey l i doc then 1 else 0 := by
  rw [keyCount_cons, keyCount_nil, Nat.zero_add]

theorem replaceOneUpsert_ok {msgs : List MsgRecord} {doc : MsgRecord}
    (h : KeyCount msgs doc.list doc.imap_uid = 0) :
    replaceOneUpsert msgs doc = .ok (msgs ++ [doc]) := by
  rw [replaceOneUpsert, if_neg]
  rw [keyCount_eq_zero] at h
  intro hany
  rw [List.any_eq_true] at hany
  obtain ⟨r, hr, hk⟩ := hany
  exact h r hr (isKey_iff.mp hk)

theorem bulkWrite_ok :
    ∀ (ops msgs : List MsgRecord),
      (∀ d ∈ ops, KeyCount msgs d.list d.imap_uid = 0) →
      ((ops.map recKey).Nodup) →
      bulkWrite ops msgs = .ok (msgs ++ ops) := by
  intro ops
  induction ops with
  | nil => intro msgs _ _; simp [bulkWrite]
  | cons doc t ih =>
    intro msgs hF hN
    rw [List.map_cons, List.nodup_cons] at hN
    rw [bulkWrite, replaceOneUpsert_ok (hF doc (List.mem_cons_self _ _))]
    have hF' : ∀ d ∈ t, KeyCount (msgs ++ [doc]) d.list d.imap_uid = 0 := by
      intro d hd
      rw [keyCount_append, hF d (List.mem_cons_of_mem _ hd), keyCount_singleton,
        if_neg, Nat.add_zero]
      intro hk
      obtain ⟨hl, hi⟩ := isKey_iff.mp hk
      exact hN.1 (by
        rw [List.mem_map]
        exact ⟨d, hd, by simp [recKey, hl, hi]⟩)
    dsimp only
    rw [ih (msgs ++ [doc]) hF' hN.2, List.append_assoc, List.singleton_append]

theorem uniqueKeys_append {msgs ops : List MsgRecord} (hU : UniqueKeys msgs)
    (hN : (ops.map recKey).Nodup)
    (hF : ∀ d ∈ ops, KeyCount msgs d.list d.imap_uid = 0) :
    UniqueKeys (msgs ++ ops) := by
  intro l i
  rw [keyCount_append]
  by_cases h0 : KeyCount ops l i = 0
  · rw [h0]
    have := hU l i
    omega
  · have hpos : 0 < KeyCount ops l i := Nat.pos_of_ne_zero h0
    obtain ⟨d, hd, hdl, hdi⟩ := keyCount_pos.mp hpos
    have h1 : KeyCount msgs l i = 0 := by
      rw [← hdl, ← hdi]
      exact hF d hd
    have h2 := uniqueKeys_of_nodup_keys hN l i
    omega

/-! ### Lemmas about the fetch pass -/

theorem normalizeMessage_list (ln : String) (msg_id fid : Nat) (raw : Blob)
    (e : PyMessage) : (normalizeMessage ln msg_id fid raw e).list = ln := rfl

theorem normalizeMessage_uid (ln : String) (msg_id fid : Nat) (raw : Blob)
    (e : PyMessage) : (normalizeMessage ln msg_id fid raw e).imap_uid = msg_id := rfl

theorem normalizeMessage_size (ln : String) (msg_id fid : Nat) (raw : Blob)
    (e : PyMessage) : (normalizeMessage ln msg_id fid raw e).size = raw.length := rfl

theorem nodup_recKey_of_nodup_uid {l : List MsgRecord}
    (h : (l.map MsgRecord.imap_uid).Nodup) : (l.map recKey).Nodup := by
  apply List.Nodup.of_map Prod.snd
  rw [List.map_map]
  exact h

theorem keyCount_eq_zero_of_uid_ne {l : List MsgRecord} {ln : String} {u : Nat}
    (h : ∀ d ∈ l, d.imap_uid ≠ u) : KeyCount l ln u = 0 := by
  rw [keyCount_eq_zero]
  intro r hr hk
  exact h r hr hk.2

theorem fetchPhase_nil (remote : Remote) (ln : String) (db : DBState)
    (ml : MLState) (staged : List MsgRecord) (newMsgs flushes : List Nat) :
    fetchPhase remote ln [] db ml staged newMsgs flushes =
      .ok (db, ml, staged, newMsgs, flushes) := rfl

theorem fetchPhase_cons_notfound {remote : Remote} {ln : String} {msg_id : Nat}
    (rest : List Nat) (db : DBState) (ml : MLState) (staged : List MsgRecord)
    (newMsgs flushes : List Nat) (hm : lookupRemote remote msg_id = none) :
    fetchPhase remote ln (msg_id :: rest) db ml staged newMsgs flushes =
      fetchPhase remote ln rest db ml staged newMsgs flushes := by
  simp [fetchPhase, hm]

theorem fetchPhase_cons_small {remote : Remote} {ln : String} {msg_id : Nat}
    {m : RemoteMsg} (rest : List Nat) (db : DBState) (ml : MLState)
    (staged : List MsgRecord) (newMsgs flushes : List Nat)
    (hm : lookupRemote remote msg_id = some m)
    (hlen : ¬(staged ++ [normalizeMessage ln msg_id (fsPut db m.raw).1 m.raw m.parsed]).length > 1000) :
    fetchPhase remote ln (msg_id :: rest) db ml staged newMsgs flushes =
      fetchPhase remote ln rest (fsPut db m.raw).2
        (bumpCount (archiveUrlStep ml msg_id m.parsed))
        (staged ++ [normalizeMessage ln msg_id (fsPut db m.raw).1 m.raw m.parsed])
        (newMsgs ++ [msg_id]) flushes := by
  simp only [fetchPhase, hm]
  rw [if_neg hlen]

theorem fetchPhase_cons_flush {remote : Remote} {ln : String} {msg_id : Nat}
    {m : RemoteMsg} (rest : List Nat) (db : DBState) (ml : MLState)
    (staged : List MsgRecord) (newMsgs flushes : List Nat)
    {msgs' : List MsgRecord}
    (hm : lookupRemote remote msg_id = some m)
    (hlen : (staged ++ [normalizeMessage ln msg_id (fsPut db m.raw).1 m.raw m.parsed]).length > 1000)
    (hbw : bulkWrite (staged ++ [normalizeMessage ln msg_id (fsPut db m.raw).1 m.raw m.parsed]) db.messages = .ok msgs') :
    fetchPhase remote ln (msg_id :: rest) db ml staged newMsgs flushes =
      fetchPhase remote ln rest { (fsPut db m.raw).2 with messages := msgs' }
        (bumpCount (archiveUrlStep ml msg_id m.parsed)) []
        (newMsgs ++ [msg_id])
        (flushes ++ [(staged ++ [normalizeMessage ln msg_id (fsPut db m.raw).1 m.raw m.parsed]).length]) := by
  simp only [fetchPhase, hm]
  rw [if_pos hlen]
  have hb2 : bulkWrite
      (staged ++ [normalizeMessage ln msg_id (fsPut db m.raw).1 m.raw m.parsed])
      (fsPut db m.raw).2.messages = .ok msgs' := by
    rw [fsPut_messages]
    exact hbw
  rw [hb2]

/-- The main invariant of the fetch pass: starting from a store with unique
keys, a to-fetch list of distinct uids absent from the store, and a staged
batch of fresh records for this list, the pass succeeds (every intermediate
`bulk_write` insert passes the unique-index check), only appends to the
store, preserves key uniqueness, keeps the staged batch fresh, retains every
record, and leaves a normalized record (with the fetched byte length as its
size) in the store or the staged batch for every processed uid. -/
theorem fetchPhase_spec (remote : Remote) (ln : String) :
    ∀ (uids : List Nat) (db : DBState) (ml : MLState) (staged : List MsgRecord)
      (newMsgs flushes : List Nat),
      uids.Nodup →
      UniqueKeys db.messages →
      (∀ u ∈ uids, KeyCount db.messages ln u = 0) →
      (∀ d ∈ staged, d.list = ln) →
      ((staged.map MsgRecord.imap_uid).Nodup) →
      (∀ d ∈ staged, KeyCount db.messages ln d.imap_uid = 0) →
      (∀ u ∈ uids, ∀ d ∈ staged, d.imap_uid ≠ u) →
      ∃ db' ml' staged' newMsgs' flushes',
        fetchPhase remote ln uids db ml staged newMsgs flushes =
          .ok (db', ml', staged', newMsgs', flushes') ∧
        (∃ A, db'.messages = db.messages ++ A) ∧
        UniqueKeys db'.messages ∧
        (∀ d ∈ staged', d.list = ln) ∧
        ((staged'.map MsgRecord.imap_uid).Nodup) ∧
        (∀ d ∈ staged', KeyCount db'.messages ln d.imap_uid = 0) ∧
        (∀ r, (r ∈ db.messages ∨ r ∈ staged) → (r ∈ db'.messages ∨ r ∈ staged')) ∧
        (∀ u m, u ∈ uids → lookupRemote remote u = some m →
          ∃ r, (r ∈ db'.messages ∨ r ∈ staged') ∧ r.list = ln ∧
            r.imap_uid = u ∧ r.size = m.raw.length) := by
  intro uids
  induction uids with
  | nil =>
    intro db ml staged newMsgs flushes _ hU _ hSL hSN hSF _
    exact ⟨db, ml, staged, newMsgs, flushes, fetchPhase_nil ..,
      ⟨[], (List.append_nil _).symm⟩, hU, hSL, hSN, hSF, fun r h => h,
      fun u m hu _ => absurd hu (List.not_mem_nil u)⟩
  | cons msg_id rest ih =>
    intro db ml staged newMsgs flushes hN hU hF hSL hSN hSF hD
    rw [List.nodup_cons] at hN
    cases hm : lookupRemote remote msg_id with
    | none =>
      obtain ⟨db', ml', staged', newMsgs', flushes', heq, hA, hU', hSL', hSN',
        hSF', hRet, hDur⟩ :=
        ih db ml staged newMsgs flushes hN.2 hU
          (fun u hu => hF u (List.mem_cons_of_mem _ hu)) hSL hSN hSF
          (fun u hu => hD u (List.mem_cons_of_mem _ hu))
      refine ⟨db', ml', staged', newMsgs', flushes',
        (fetchPhase_cons_notfound rest db ml staged newMsgs flushes hm).trans heq,
        hA, hU', hSL', hSN', hSF', hRet, ?_⟩
      intro u m hu hlm
      rcases List.mem_cons.mp hu with rfl | hu'
      · rw [hm] at hlm; cases hlm
      · exact hDur u m hu' hlm
    | some m =>
      have hdl : (normalizeMessage ln msg_id (fsPut db m.raw).1 m.raw m.parsed).list = ln := rfl
      have hdu : (normalizeMessage ln msg_id (fsPut db m.raw).1 m.raw m.parsed).imap_uid = msg_id := rfl
      have hds : (normalizeMessage ln msg_id (fsPut db m.raw).1 m.raw m.parsed).size = m.raw.length := rfl
      set doc := normalizeMessage ln msg_id (fsPut db m.raw).1 m.raw m.parsed with hdocdef
      set staged1 := staged ++ [doc] with hstaged1
      have hdocmem : doc ∈ staged1 := by
        rw [hstaged1]
        exact List.mem_append_right _ (List.mem_singleton_self _)
      have hstagedsub : ∀ d ∈ staged, d ∈ staged1 := by
        intro d hd
        rw [hstaged1]
        exact List.mem_append_left _ hd
      have hS1mem : ∀ d ∈ staged1, d ∈ staged ∨ d = doc := by
        intro d hd
        rw [hstaged1] at hd
        rcases List.mem_append.mp hd with h | h
        · exact Or.inl h
        · exact Or.inr (List.mem_singleton.mp h)
      have hS1L : ∀ d ∈ staged1, d.list = ln := by
        intro d hd
        rcases hS1mem d hd with h | h
        · exact hSL d h
        · rw [h]; exact hdl
      have hS1N : (staged1.map MsgRecord.imap_uid).Nodup := by
        rw [hstaged1, List.map_append]
        apply List.Nodup.append hSN (List.nodup_singleton _)
        intro a ha hb
        simp only [List.map_cons, List.map_nil, List.mem_singleton] at hb
        rw [hdu] at hb
        obtain ⟨d, hd, hdeq⟩ := List.mem_map.mp ha
        exact hD msg_id (List.mem_cons_self _ _) d hd (hdeq.trans hb)
      have hS1F : ∀ d ∈ staged1, KeyCount db.messages ln d.imap_uid = 0 := by
        intro d hd
        rcases hS1mem d hd with h | h
        · exact hSF d h
        · rw [h, hdu]
          exact hF msg_id (List.mem_cons_self _ _)
      have hbF : ∀ d ∈ staged1, KeyCount db.messages d.list d.imap_uid = 0 := by
        intro d hd
        rw [hS1L d hd]
        exact hS1F d hd
      have hKN : (staged1.map recKey).Nodup := nodup_recKey_of_nodup_uid hS1N
      by_cases hlen : staged1.length > 1000
      · have hbw : bulkWrite staged1 db.messages = .ok (db.messages ++ staged1) :=
          bulkWrite_ok staged1 db.messages hbF hKN
        have hU2 : UniqueKeys (db.messages ++ staged1) :=
          uniqueKeys_append hU hKN hbF
        have hF2 : ∀ u ∈ rest, KeyCount (db.messages ++ staged1) ln u = 0 := by
          intro u hu
          rw [keyCount_append, hF u (List.mem_cons_of_mem _ hu),
            keyCount_eq_zero_of_uid_ne (fun d hd => ?_)]
          rcases hS1mem d hd with h | h
          · exact hD u (List.mem_cons_of_mem _ hu) d h
          · rw [h, hdu]
            intro hc
            exact hN.1 (hc ▸ hu)
        obtain ⟨db', ml', staged', newMsgs', flushes', heq, ⟨A, hA⟩, hU', hSL',
          hSN', hSF', hRet, hDur⟩ :=
          ih { (fsPut db m.raw).2 with messages := db.messages ++ staged1 }
            (bumpCount (archiveUrlStep ml msg_id m.parsed)) []
            (newMsgs ++ [msg_id]) (flushes ++ [staged1.length])
            hN.2 hU2 hF2
            (fun d hd => absurd hd (List.not_mem_nil d))
            List.nodup_nil
            (fun d hd => absurd hd (List.not_mem_nil d))
            (fun u _ d hd => absurd hd (List.not_mem_nil d))
        refine ⟨db', ml', staged', newMsgs', flushes',
          (fetchPhase_cons_flush rest db ml staged newMsgs flushes hm hlen hbw).trans heq,
          ⟨staged1 ++ A, by rw [hA, List.append_assoc]⟩,
          hU', hSL', hSN', hSF', ?_, ?_⟩
        · intro r hr
          apply hRet
          left
          rcases hr with h | h
          · exact List.mem_append_left _ h
          · exact List.mem_append_right _ (hstagedsub r h)
        · intro u m0 hu hlm
          rcases List.mem_cons.mp hu with rfl | hu'
          · rw [hm] at hlm
            injection hlm with hm0
            subst hm0
            refine ⟨doc, hRet doc (Or.inl (List.mem_append_right _ hdocmem)), hdl, hdu, hds⟩
          · exact hDur u m0 hu' hlm
      · have hF2 : ∀ u ∈ rest, KeyCount (fsPut db m.raw).2.messages ln u = 0 := by
          intro u hu
          rw [fsPut_messages]
          exact hF u (List.mem_cons_of_mem _ hu)
        have hS1F' : ∀ d ∈ staged1, KeyCount (fsPut db m.raw).2.messages ln d.imap_uid = 0 := by
          intro d hd
          rw [fsPut_messages]
          exact hS1F d hd
        have hD2 : ∀ u ∈ rest, ∀ d ∈ staged1, d.imap_uid ≠ u := by
          intro u hu d hd
          rcases hS1mem d hd with h | h
          · exact hD u (List.mem_cons_of_mem _ hu) d h
          · rw [h, hdu]
            intro hc
            exact hN.1 (hc ▸ hu)
        obtain ⟨db', ml', staged', newMsgs', flushes', heq, ⟨A, hA⟩, hU', hSL',
          hSN', hSF', hRet, hDur⟩ :=
          ih (fsPut db m.raw).2 (bumpCount (archiveUrlStep ml msg_id m.parsed))
            staged1 (newMsgs ++ [msg_id]) flushes
            hN.2 (by rw [show (fsPut db m.raw).2.messages = db.messages from rfl]; exact hU)
            hF2 hS1L hS1N hS1F' hD2
        refine ⟨db', ml', staged', newMsgs', flushes',
          (fetchPhase_cons_small rest db ml staged newMsgs flushes hm hlen).trans heq,
          ⟨A, by rw [← fsPut_messages db m.raw, hA]⟩,
          hU', hSL', hSN', hSF', ?_, ?_⟩
        · intro r hr
          apply hRet
          rcases hr with h | h
          · exact Or.inl (by rw [fsPut_messages]; exact h)
          · exact Or.inr (hstagedsub r h)
        · intro u m0 hu hlm
          rcases List.mem_cons.mp hu with rfl | hu'
          · rw [hm] at hlm
            injection hlm with hm0
            subst hm0
            refine ⟨doc, hRet doc (Or.inr hdocmem), hdl, hdu, hds⟩
          · exact hDur u m0 hu' hlm

theorem fetchPhase_cons_flush_err {remote : Remote} {ln : String} {msg_id : Nat}
    {m : RemoteMsg} (rest : List Nat) (db : DBState) (ml : MLState)
    (staged : List MsgRecord) (newMsgs flushes : List Nat) {e : Unit}
    (hm : lookupRemote remote msg_id = some m)
    (hlen : (staged ++ [normalizeMessage ln msg_id (fsPut db m.raw).1 m.raw m.parsed]).length > 1000)
    (hbw : bulkWrite (staged ++ [normalizeMessage ln msg_id (fsPut db m.raw).1 m.raw m.parsed]) db.messages = .error e) :
    fetchPhase remote ln (msg_id :: rest) db ml staged newMsgs flushes =
      .error (.bulkWriteError, (fsPut db m.raw).2,
              bumpCount (archiveUrlStep ml msg_id m.parsed)) := by
  simp only [fetchPhase, hm]
  rw [if_pos hlen]
  have hb2 : bulkWrite
      (staged ++ [normalizeMessage ln msg_id (fsPut db m.raw).1 m.raw m.parsed])
      (fsPut db m.raw).2.messages = .error e := by
    rw [fsPut_messages]
    exact hbw
  rw [hb2]

theorem archiveUrlStep_numMessages (ml : MLState) (msg_id : Nat) (e : PyMessage) :
    (archiveUrlStep ml msg_id e).numMessages = ml.numMessages := by
  rw [archiveUrlStep]
  cases e.archivedAt <;> rfl

/-- Bookkeeping of the fetch pass: when every processed uid is present on
the remote, `new_msgs` collects exactly the processed uids in order,
`_num_messages` grows by their number, and the flush sizes follow the
batching recurrence. -/
theorem fetchPhase_counts (remote : Remote) (ln : String) :
    ∀ (uids : List Nat) (db : DBState) (ml : MLState) (staged : List MsgRecord)
      (newMsgs flushes : List Nat) (db' : DBState) (ml' : MLState)
      (staged' : List MsgRecord) (newMsgs' flushes' : List Nat),
      (∀ u ∈ uids, (lookupRemote remote u).isSome) →
      fetchPhase remote ln uids db ml staged newMsgs flushes =
        .ok (db', ml', staged', newMsgs', flushes') →
      newMsgs' = newMsgs ++ uids ∧
      ml'.numMessages = ml.numMessages + uids.length ∧
      flushes' = flushes ++ batchSizes staged.length uids.length ∧
      staged'.length = stagedLen staged.length uids.length := by
  intro uids
  induction uids with
  | nil =>
    intro db ml staged newMsgs flushes db' ml' staged' newMsgs' flushes' _ h
    rw [fetchPhase_nil] at h
    injection h with h
    injection h with h1 h
    injection h with h2 h
    injection h with h3 h
    injection h with h4 h5
    subst h1; subst h2; subst h3; subst h4; subst h5
    simp [batchSizes, stagedLen]
  | cons msg_id rest ih =>
    intro db ml staged newMsgs flushes db' ml' staged' newMsgs' flushes' hall h
    have hsome := hall msg_id (List.mem_cons_self _ _)
    rw [Option.isSome_iff_exists] at hsome
    obtain ⟨m, hm⟩ := hsome
    have hall' : ∀ u ∈ rest, (lookupRemote remote u).isSome :=
      fun u hu => hall u (List.mem_cons_of_mem _ hu)
    have hlen1 : (staged ++ [normalizeMessage ln msg_id (fsPut db m.raw).1 m.raw m.parsed]).length
        = staged.length + 1 := by
      rw [List.length_append, List.length_singleton]
    by_cases hlen : (staged ++ [normalizeMessage ln msg_id (fsPut db m.raw).1 m.raw m.parsed]).length > 1000
    · cases hbw : bulkWrite
          (staged ++ [normalizeMessage ln msg_id (fsPut db m.raw).1 m.raw m.parsed])
          db.messages with
      | error e =>
        rw [fetchPhase_cons_flush_err rest db ml staged newMsgs flushes hm hlen hbw] at h
        cases h
      | ok msgs' =>
        rw [fetchPhase_cons_flush rest db ml staged newMsgs flushes hm hlen hbw] at h
        obtain ⟨h1, h2, h3, h4⟩ := ih _ _ _ _ _ _ _ _ _ _ hall' h
        have hnum : (bumpCount (archiveUrlStep ml msg_id m.parsed)).numMessages =
            ml.numMessages + 1 := by
          rw [bumpCount, archiveUrlStep_numMessages]
        refine ⟨?_, ?_, ?_, ?_⟩
        · rw [h1, List.append_assoc, List.singleton_append]
        · rw [h2, hnum, List.length_cons]
          omega
        · rw [h3, hlen1, List.length_cons, batchSizes, if_pos (by omega),
            List.append_assoc, List.singleton_append]
          rfl
        · rw [h4, List.length_cons, stagedLen, if_pos (by omega)]
          rfl
    · rw [fetchPhase_cons_small rest db ml staged newMsgs flushes hm hlen] at h
      obtain ⟨h1, h2, h3, h4⟩ := ih _ _ _ _ _ _ _ _ _ _ hall' h
      have hnum : (bumpCount (archiveUrlStep ml msg_id m.parsed)).numMessages =
          ml.numMessages + 1 := by
        rw [bumpCount, archiveUrlStep_numMessages]
      refine ⟨?_, ?_, ?_, ?_⟩
      · rw [h1, List.append_assoc, List.singleton_append]
      · rw [h2, hnum, List.length_cons]
        omega
      · rw [h3, hlen1, List.length_cons, batchSizes, if_neg (by omega)]
      · rw [h4, hlen1, List.length_cons, stagedLen, if_neg (by omega)]

/-- The fetch pass only adds blobs with fresh object ids and never lowers
the allocation counter. -/
theorem fetchPhase_blobs (remote : Remote) (ln : String) :
    ∀ (uids : List Nat) (db : DBState) (ml : MLState) (staged : List MsgRecord)
      (newMsgs flushes : List Nat) (db' : DBState) (ml' : MLState)
      (staged' : List MsgRecord) (newMsgs' flushes' : List Nat),
      fetchPhase remote ln uids db ml staged newMsgs flushes =
        .ok (db', ml', staged', newMsgs', flushes') →
      (∀ x, x ∈ blobIds db' → x ∈ blobIds db ∨ db.nextBlob ≤ x) ∧
      db.nextBlob ≤ db'.nextBlob := by
  intro uids
  induction uids with
  | nil =>
    intro db ml staged newMsgs flushes db' ml' staged' newMsgs' flushes' h
    rw [fetchPhase_nil] at h
    injection h with h
    injection h with h1 _
    subst h1
    exact ⟨fun x hx => Or.inl hx, Nat.le_refl _⟩
  | cons msg_id rest ih =>
    intro db ml staged newMsgs flushes db' ml' staged' newMsgs' flushes' h
    cases hm : lookupRemote remote msg_id with
    | none =>
      rw [fetchPhase_cons_notfound rest db ml staged newMsgs flushes hm] at h
      exact ih _ _ _ _ _ _ _ _ _ _ h
    | some m =>
      have hblob1 : ∀ (X : DBState), X.blobs = (fsPut db m.raw).2.blobs →
          X.nextBlob = db.nextBlob + 1 →
          (∀ x, x ∈ blobIds X → x ∈ blobIds db ∨ x = db.nextBlob) := by
        intro X hXb _ x hx
        rw [blobIds, hXb] at hx
        rw [fsPut] at hx
        simp only [List.map_append, List.mem_append] at hx
        rcases hx with hx | hx
        · exact Or.inl hx
        · simp at hx
          exact Or.inr hx
      by_cases hlen : (staged ++ [normalizeMessage ln msg_id (fsPut db m.raw).1 m.raw m.parsed]).length > 1000
      · cases hbw : bulkWrite
            (staged ++ [normalizeMessage ln msg_id (fsPut db m.raw).1 m.raw m.parsed])
            db.messages with
        | error e =>
          rw [fetchPhase_cons_flush_err rest db ml staged newMsgs flushes hm hlen hbw] at h
          cases h
        | ok msgs' =>
          rw [fetchPhase_cons_flush rest db ml staged newMsgs flushes hm hlen hbw] at h
          obtain ⟨hb, hn⟩ := ih _ _ _ _ _ _ _ _ _ _ h
          constructor
          · intro x hx
            rcases hb x hx with hx' | hx'
            · rcases hblob1 _ rfl rfl x hx' with h' | h'
              · exact Or.inl h'
              · exact Or.inr (Nat.le_of_eq h'.symm)
            · exact Or.inr (le_trans (Nat.le_succ _) hx')
          · exact le_trans (Nat.le_succ _) hn
      · rw [fetchPhase_cons_small rest db ml staged newMsgs flushes hm hlen] at h
        obtain ⟨hb, hn⟩ := ih _ _ _ _ _ _ _ _ _ _ h
        constructor
        · intro x hx
          rcases hb x hx with hx' | hx'
          · rcases hblob1 _ rfl rfl x hx' with h' | h'
            · exact Or.inl h'
            · exact Or.inr (Nat.le_of_eq h'.symm)
          · exact Or.inr (le_trans (Nat.le_succ _) hx')
        · exact le_trans (Nat.le_succ _) hn

/-- With duplicate-free remote uids, the pointwise lookup recovers exactly
the mailbox entry. -/
theorem lookupRemote_of_mem_nodup :
    ∀ {remote : Remote} {u : Nat} {m : RemoteMsg},
      ((remote.map Prod.fst).Nodup) → (u, m) ∈ remote →
      lookupRemote remote u = some m := by
  intro remote
  induction remote with
  | nil => intro u m _ hm; cases hm
  | cons em rest ih =>
    obtain ⟨u', m'⟩ := em
    intro u m hN hm
    rw [List.map_cons, List.nodup_cons] at hN
    rcases List.mem_cons.mp hm with heq | hmem
    · injection heq with h1 h2
      subst h1
      subst h2
      rw [lookupRemote, List.find?_cons_of_pos _ (by simp)]
      rfl
    · by_cases hu : u' = u
      · exfalso
        apply hN.1
        rw [List.mem_map]
        exact ⟨(u, m), hmem, hu.symm⟩
      · rw [lookupRemote, List.find?_cons_of_neg _ (by simp [hu])]
        exact ih hN.2 hmem

/-! ### Lemmas about `update` -/

theorem update_eq_err {ln : String} {db : DBState} {ml : MLState}
    {remote : Remote} {e : PyErr}
    (hsc : sizeCheck ln (cachedLookup db.messages ln) remote db = .error e) :
    update ln db ml remote = .error (e, db, ml) := by
  simp only [update]
  rw [hsc]

theorem update_eq_nofetch {ln : String} {db : DBState} {ml : MLState}
    {remote : Remote} {msg_fetch : List Nat}
    (hsc : sizeCheck ln (cachedLookup db.messages ln) remote db = .ok msg_fetch)
    (hlen : ¬msg_fetch.length > 0) :
    update ln db ml remote = .ok (db, ml, [], []) := by
  simp only [update]
  rw [hsc]
  dsimp only
  rw [if_neg hlen]

theorem update_eq_noflush {ln : String} {db : DBState} {ml : MLState}
    {remote : Remote} {msg_fetch : List Nat} {db2 : DBState} {ml2 : MLState}
    {staged' : List MsgRecord} {new2 fl2 : List Nat}
    (hsc : sizeCheck ln (cachedLookup db.messages ln) remote db = .ok msg_fetch)
    (hlen : msg_fetch.length > 0)
    (hF : fetchPhase remote ln msg_fetch db ml [] [] [] =
        .ok (db2, ml2, staged', new2, fl2))
    (hs : ¬staged'.length > 0) :
    update ln db ml remote =
      .ok ({ db2 with aaCache := dictInsert db2.aaCache ln ml2.archiveUrls },
           ml2, new2, fl2) := by
  simp only [update]
  rw [hsc]
  dsimp only
  rw [if_pos hlen, hF]
  dsimp only
  rw [if_neg hs]

theorem update_eq_flush {ln : String} {db : DBState} {ml : MLState}
    {remote : Remote} {msg_fetch : List Nat} {db2 : DBState} {ml2 : MLState}
    {staged' : List MsgRecord} {new2 fl2 : List Nat} {M : List MsgRecord}
    (hsc : sizeCheck ln (cachedLookup db.messages ln) remote db = .ok msg_fetch)
    (hlen : msg_fetch.length > 0)
    (hF : fetchPhase remote ln msg_fetch db ml [] [] [] =
        .ok (db2, ml2, staged', new2, fl2))
    (hs : staged'.length > 0)
    (hbw : bulkWrite staged' db2.messages = .ok M) :
    update ln db ml remote =
      .ok ({ { db2 with aaCache := dictInsert db2.aaCache ln ml2.archiveUrls }
              with messages := M },
           ml2, new2, fl2 ++ [staged'.length]) := by
  simp only [update]
  rw [hsc]
  dsimp only
  rw [if_pos hlen, hF]
  dsimp only
  rw [if_pos hs]
  have hbw' : bulkWrite staged'
      ({ db2 with aaCache := dictInsert db2.aaCache ln ml2.archiveUrls }).messages =
      .ok M := hbw
  rw [hbw']

/-- The central characterization of one completing `update` run from a
store with unique keys against a remote mailbox with distinct uids, under
the condition that no cached remote id changed size (otherwise the run
raises out of the size-check pass — see `gridOutDelete`): the run
succeeds; it returns exactly the uncached ids as `new_msgs`; key
uniqueness is preserved; `_num_messages` grows by the number of fetched
messages; the flush sizes follow `finalFlushes`; after the run every
remote entry has a stored record of the remote's byte length; the store is
only appended to; and every blob still present was already present or
freshly allocated. -/
theorem update_spec (ln : String) (db : DBState) (ml : MLState) (remote : Remote)
    (hU : UniqueKeys db.messages) (hR : (remote.map Prod.fst).Nodup)
    (hnm : ∀ u m cm, (u, m) ∈ remote →
      cachedLookup db.messages ln u = some cm → cm.size = m.raw.length) :
    ∃ db' ml' fl,
      update ln db ml remote =
        .ok (db', ml',
          (remote.filter (uncachedPred (cachedLookup db.messages ln))).map Prod.fst,
          fl) ∧
      UniqueKeys db'.messages ∧
      ml'.numMessages = ml.numMessages +
        ((remote.filter (uncachedPred (cachedLookup db.messages ln))).map Prod.fst).length ∧
      fl = finalFlushes
        ((remote.filter (uncachedPred (cachedLookup db.messages ln))).map Prod.fst).length ∧
      (∀ u m, (u, m) ∈ remote →
        ∃ r ∈ db'.messages, r.list = ln ∧ r.imap_uid = u ∧ r.size = m.raw.length) ∧
      (∀ x, x ∈ blobIds db' → x ∈ blobIds db ∨ db.nextBlob ≤ x) ∧
      (∃ A, db'.messages = db.messages ++ A) := by
  have hsc := sizeCheck_ok_intro ln (cachedLookup db.messages ln) remote db hnm
  set F := (remote.filter (uncachedPred (cachedLookup db.messages ln))).map Prod.fst
    with hFdef
  have hNod : F.Nodup := ((List.filter_sublist remote).map Prod.fst).nodup hR
  have hFresh : ∀ u ∈ F, KeyCount db.messages ln u = 0 := by
    intro u hu
    exact cachedLookup_eq_none_iff.mp (mem_fetch_uncached (hFdef ▸ hu)).1
  have hmemfetch : ∀ u ∈ F, ∃ m, (u, m) ∈ remote ∧ lookupRemote remote u = some m := by
    intro u hu
    obtain ⟨_, m, hm⟩ := mem_fetch_uncached (hFdef ▸ hu)
    exact ⟨m, hm, lookupRemote_of_mem_nodup hR hm⟩
  have hall : ∀ u ∈ F, (lookupRemote remote u).isSome := by
    intro u hu
    obtain ⟨m, _, hl⟩ := hmemfetch u hu
    rw [hl]
    rfl
  have hfetchmem : ∀ u m, (u, m) ∈ remote →
      cachedLookup db.messages ln u = none → u ∈ F := by
    intro u m hm hc
    rw [hFdef, List.mem_map]
    exact ⟨(u, m), List.mem_filter.mpr ⟨hm, by simp [uncachedPred, hc]⟩, rfl⟩
  have hdurskip : ∀ u m, (u, m) ∈ remote →
      ∀ cm, cachedLookup db.messages ln u = some cm →
      cm ∈ db.messages ∧ cm.list = ln ∧ cm.imap_uid = u ∧
        cm.size = m.raw.length := by
    intro u m hm cm hc
    obtain ⟨hcm, hcl, hcu⟩ := cachedLookup_some hc
    exact ⟨hcm, hcl, hcu, hnm u m cm hm hc⟩
  by_cases hfl : F.length > 0
  · obtain ⟨db2, ml2, staged', new2, fl2, heqF, ⟨A, hA⟩, hU2, hSL2, hSN2, hSF2,
      hRet, hDur⟩ :=
      fetchPhase_spec remote ln F db ml [] [] []
        hNod hU hFresh
        (fun d hd => absurd hd (List.not_mem_nil d))
        List.nodup_nil
        (fun d hd => absurd hd (List.not_mem_nil d))
        (fun u _ d hd => absurd hd (List.not_mem_nil d))
    obtain ⟨hnew2, hnum2, hfl2, hsl⟩ :=
      fetchPhase_counts remote ln _ _ _ _ _ _ _ _ _ _ _ hall heqF
    obtain ⟨hBlob2, _⟩ := fetchPhase_blobs remote ln _ _ _ _ _ _ _ _ _ _ _ heqF
    rw [List.nil_append] at hnew2 hfl2
    rw [List.length_nil] at hfl2 hsl
    subst hnew2
    have hdurboth : ∀ u m, (u, m) ∈ remote →
        ∃ r, (r ∈ db2.messages ∨ r ∈ staged') ∧ r.list = ln ∧ r.imap_uid = u ∧
          r.size = m.raw.length := by
      intro u m hm
      cases hc : cachedLookup db.messages ln u with
      | none =>
        have hu := hfetchmem u m hm hc
        exact hDur u m hu (lookupRemote_of_mem_nodup hR hm)
      | some cm =>
        obtain ⟨h1, h2, h3, h4⟩ := hdurskip u m hm cm hc
        exact ⟨cm, hRet cm (Or.inl h1), h2, h3, h4⟩
    by_cases hs : staged'.length > 0
    · have hbF : ∀ d ∈ staged', KeyCount db2.messages d.list d.imap_uid = 0 := by
        intro d hd
        rw [hSL2 d hd]
        exact hSF2 d hd
      have hbw : bulkWrite staged' db2.messages = .ok (db2.messages ++ staged') :=
        bulkWrite_ok staged' db2.messages hbF (nodup_recKey_of_nodup_uid hSN2)
      refine ⟨_, ml2, fl2 ++ [staged'.length],
        update_eq_flush hsc hfl heqF hs hbw, ?_, hnum2, ?_, ?_, ?_, ?_⟩
      · exact uniqueKeys_append hU2 (nodup_recKey_of_nodup_uid hSN2) hbF
      · rw [hfl2, hsl, finalFlushes, if_pos (by rw [← hsl]; exact hs)]
      · intro u m hm
        obtain ⟨r, hr, hrl, hru, hrs⟩ := hdurboth u m hm
        refine ⟨r, ?_, hrl, hru, hrs⟩
        rcases hr with h | h
        · exact List.mem_append_left _ h
        · exact List.mem_append_right _ h
      · intro x hx
        exact hBlob2 x hx
      · exact ⟨A ++ staged', by rw [hA, List.append_assoc]⟩
    · have hnil' : staged' = [] := List.length_eq_zero.mp (by omega)
      refine ⟨_, ml2, fl2,
        update_eq_noflush hsc hfl heqF hs, hU2, hnum2, ?_, ?_, ?_, ⟨A, hA⟩⟩
      · rw [hfl2, finalFlushes, if_neg (by rw [← hsl]; exact hs), List.append_nil]
      · intro u m hm
        obtain ⟨r, hr, hrl, hru, hrs⟩ := hdurboth u m hm
        rcases hr with h | h
        · exact ⟨r, h, hrl, hru, hrs⟩
        · rw [hnil'] at h
          cases h
      · intro x hx
        exact hBlob2 x hx
  · have hnil : F = [] := List.length_eq_zero.mp (by omega)
    refine ⟨db, ml, [], ?_, hU, ?_, ?_, ?_, fun x hx => Or.inl hx,
      ⟨[], (List.append_nil _).symm⟩⟩
    · rw [update_eq_nofetch hsc hfl, hnil]
    · rw [hnil]
      rfl
    · rw [hnil]
      rfl
    · intro u m hm
      cases hc : cachedLookup db.messages ln u with
      | none =>
        exfalso
        have hmem := hfetchmem u m hm hc
        rw [hnil] at hmem
        cases hmem
      | some cm =>
        obtain ⟨h1, h2, h3, h4⟩ := hdurskip u m hm cm hc
        exact ⟨cm, h1, h2, h3, h4⟩

/-- A run that returns `.ok` certifies the no-mismatch condition of
`update_spec`, and its outputs satisfy that characterization. -/
theorem update_ok_spec {ln : String} {db : DBState} {ml : MLState}
    {remote : Remote} {db1 : DBState} {ml1 : MLState} {new fl : List Nat}
    (hU : UniqueKeys db.messages) (hR : (remote.map Prod.fst).Nodup)
    (h : update ln db ml remote = .ok (db1, ml1, new, fl)) :
    UniqueKeys db1.messages ∧
    ml1.numMessages = ml.numMessages + new.length ∧
    fl = finalFlushes new.length ∧
    (∀ u m, (u, m) ∈ remote →
      ∃ r ∈ db1.messages, r.list = ln ∧ r.imap_uid = u ∧
        r.size = m.raw.length) := by
  cases hsc : sizeCheck ln (cachedLookup db.messages ln) remote db with
  | error e =>
    rw [update_eq_err hsc] at h
    cases h
  | ok msg_fetch =>
    obtain ⟨hnm, _⟩ :=
      sizeCheck_ok_elim ln (cachedLookup db.messages ln) remote db msg_fetch hsc
    obtain ⟨db', ml', fl', heq, hU', hnum, hfl', hcov, _, _⟩ :=
      update_spec ln db ml remote hU hR hnm
    rw [h] at heq
    injection heq with heq
    injection heq with hdb heq
    injection heq with hml heq
    injection heq with hnew hfl2
    subst hdb
    subst hml
    subst hnew
    subst hfl2
    exact ⟨hU', hnum, hfl', hcov⟩

/-- Under the unique-key invariant, an aborting run leaves the store and
the list state exactly as it found them: the only reachable exception is
the size-check pass's `AttributeError`/`NoFile` (lines 198-199), raised
before any write. -/
theorem update_error_state {ln : String} {db : DBState} {ml : MLState}
    {remote : Remote} {e : PyErr} {dbe : DBState} {mle : MLState}
    (hU : UniqueKeys db.messages) (hR : (remote.map Prod.fst).Nodup)
    (h : update ln db ml remote = .error (e, dbe, mle)) :
    dbe = db ∧ mle = ml := by
  cases hsc : sizeCheck ln (cachedLookup db.messages ln) remote db with
  | error e' =>
    rw [update_eq_err hsc] at h
    injection h with h
    injection h with h1 h
    injection h with h2 h3
    exact ⟨h2.symm, h3.symm⟩
  | ok msg_fetch =>
    obtain ⟨hnm, _⟩ :=
      sizeCheck_ok_elim ln (cachedLookup db.messages ln) remote db msg_fetch hsc
    obtain ⟨db', ml', fl', heq, _⟩ := update_spec ln db ml remote hU hR hnm
    rw [h] at heq
    cases heq

/-- When every remote entry already has a stored record of the matching
size, `update` is a no-op: the size-check pass completes marking nothing
to-fetch, and the run returns an empty `new_msgs` with the state
untouched. -/
theorem update_noop (ln : String) (db : DBState) (ml : MLState) (remote : Remote)
    (hU : UniqueKeys db.messages)
    (hcov : ∀ u m, (u, m) ∈ remote →
      ∃ r ∈ db.messages, r.list = ln ∧ r.imap_uid = u ∧ r.size = m.raw.length) :
    update ln db ml remote = .ok (db, ml, [], []) := by
  have hnm : ∀ u m cm, (u, m) ∈ remote →
      cachedLookup db.messages ln u = some cm → cm.size = m.raw.length := by
    intro u m cm hm hc
    obtain ⟨r, hr, hrl, hru, hrs⟩ := hcov u m hm
    have hlook := cachedLookup_eq_some_of_unique hU hr hrl hru
    rw [hlook] at hc
    injection hc with hc
    rw [← hc]
    exact hrs
  have hallc : ∀ em ∈ remote,
      uncachedPred (cachedLookup db.messages ln) em = false := by
    intro em hem
    obtain ⟨u, m⟩ := em
    obtain ⟨r, hr, hrl, hru, hrs⟩ := hcov u m hem
    have hlook := cachedLookup_eq_some_of_unique hU hr hrl hru
    simp [uncachedPred, hlook]
  have hsc := sizeCheck_ok_intro ln (cachedLookup db.messages ln) remote db hnm
  rw [List.filter_eq_nil_iff.mpr (fun em hem => by rw [hallc em hem]; simp)] at hsc
  rw [update_eq_nofetch hsc (by simp)]

/-- C1 (amended).  Whatever sequence of synchronization runs — completing
or aborting — is applied to a store satisfying the unique-index invariant,
the final store still holds at most one record per `(listName,
sequenceId)` pair: fresh ids are staged through the upsert path against
the unique index, and a run that observes a changed size aborts before
writing anything.  The claim's replace-the-stale-copy mechanism, however,
never executes (see the counterexample). -/
theorem claim_C1_no_duplication (ln : String) (runs : List Remote)
    (db : DBState) (ml : MLState) (hU : UniqueKeys db.messages)
    (hN : ∀ remote ∈ runs, (remote.map Prod.fst).Nodup) :
    UniqueKeys (updateRuns ln runs db ml).1.messages := by
  induction runs generalizing db ml with
  | nil => exact hU
  | cons remote rest ih =>
    cases h : update ln db ml remote with
    | error t =>
      obtain ⟨e, db1, ml1⟩ := t
      obtain ⟨hdb, -⟩ :=
        update_error_state hU (hN remote (List.mem_cons_self _ _)) h
      have heq : updateRuns ln (remote :: rest) db ml = (db1, ml1, some e) := by
        simp only [updateRuns, h]
      rw [heq]
      dsimp only
      rw [hdb]
      exact hU
    | ok t =>
      obtain ⟨db1, ml1, new, fl⟩ := t
      have heq : updateRuns ln (remote :: rest) db ml =
          updateRuns ln rest db1 ml1 := by
        simp only [updateRuns, h]
      rw [heq]
      exact ih db1 ml1
        ((update_ok_spec hU (hN remote (List.mem_cons_self _ _)) h).1)
        (fun r hr => hN r (List.mem_cons_of_mem _ hr))

/-- Counterexample to C1 as stated: the claimed "replaces the stored copy"
path never executes.  With sequence id 42 cached at size 10 and the remote
reporting size 12, the run raises `AttributeError` — `fs.get(...)` returns
a `GridOut`, which has no `delete()` method (line 199) — and aborts with
the store exactly as it found it, the stale record still in place. -/
theorem claim_C1_counterexample :
    rec42.size ≠ (trivRemoteMsg 12).raw.length ∧
    update "example-list" db42 ml42 remote42 =
      .error (.attributeError, db42, ml42) ∧
    updateRuns "example-list" [remote42] db42 ml42 =
      (db42, ml42, some .attributeError) :=
  ⟨by decide, by decide, by decide⟩

/-- Witness for C1 at a concrete input: two successive runs against the
two-message mailbox `remoteA`, starting from the empty store. -/
theorem claim_C1_no_duplication_witness :
    UniqueKeys (updateRuns "l" [remoteA, remoteA] dbEmpty mlEmpty).1.messages :=
  claim_C1_no_duplication "l" [remoteA, remoteA] dbEmpty mlEmpty
    uniqueKeys_nil
    (by
      intro remote hr
      have hA : remote = remoteA := by
        rcases List.mem_cons.mp hr with h | h
        · exact h
        · simpa using h
      rw [hA, remoteA]
      decide)

/-- C2.  Running `update` twice in succession with the remote mailbox
unchanged: the second run returns an empty `new_msgs` list and leaves the
entire store and list state — in particular the cached message count —
exactly as the first run left them. -/
theorem claim_C2_idempotence (ln : String) (db : DBState) (ml : MLState)
    (remote : Remote) (db1 : DBState) (ml1 : MLState) (new1 fl1 : List Nat)
    (hU : UniqueKeys db.messages) (hR : (remote.map Prod.fst).Nodup)
    (h1 : update ln db ml remote = .ok (db1, ml1, new1, fl1)) :
    update ln db1 ml1 remote = .ok (db1, ml1, [], []) := by
  obtain ⟨hU1, -, -, hcov⟩ := update_ok_spec hU hR h1
  exact update_noop ln db1 ml1 remote hU1 hcov

/-- Witness for C2 at a concrete input: the second run over `remoteA`
after the first run has populated the cache. -/
theorem claim_C2_idempotence_witness :
    update "l" dbAfterA mlAfterA remoteA = .ok (dbAfterA, mlAfterA, [], []) :=
  claim_C2_idempotence "l" dbEmpty mlEmpty remoteA dbAfterA mlAfterA [1, 2] [2]
    uniqueKeys_nil (by decide) (by decide)

/-- C3.  The size-mismatch "repair" promised by the spec never happens —
this is a code bug.  On the spec's own scenario (sequence id 42 cached at
size 10, remote now reporting size 12) the run enters the mismatch branch,
`fs.get` (line 198) returns the stale `GridOut`, and `cache_file.delete()`
(line 199) raises `AttributeError` because `GridOut` has no `delete()`
method; the `delete_one` and the re-fetch (lines 200-201) are unreachable.
The run aborts with the store byte-for-byte as it found it: the stale row
is still present with the old size 10, and the old blob is still
retrievable. -/
theorem claim_C3_size_mismatch_repair :
    rec42.size = 10 ∧ (trivRemoteMsg 12).raw.length = 12 ∧
    cachedLookup db42.messages "example-list" 42 = some rec42 ∧
    update "example-list" db42 ml42 remote42 =
      .error (.attributeError, db42, ml42) ∧
    rec42 ∈ db42.messages ∧
    fsGet db42 rec42.gridfs_id = some (List.replicate 10 65) :=
  ⟨rfl, by decide, by decide, by decide, by decide, by decide⟩

/-- C10 (amended).  After a completing `update` run, `num_messages()`
equals its pre-run value plus the number of fetched messages; and an
aborting run leaves the counter unchanged.  The claim's "re-fetched
repairs included" reading is unrealizable: a size mismatch aborts the run
before any fetch (see the counterexample), so no double-count is ever
observed either. -/
theorem claim_C10_message_count :
    (∀ (ln : String) (db : DBState) (ml : MLState) (remote : Remote)
       (db1 : DBState) (ml1 : MLState) (new fl : List Nat),
      UniqueKeys db.messages → (remote.map Prod.fst).Nodup →
      update ln db ml remote = .ok (db1, ml1, new, fl) →
      ml1.numMessages = ml.numMessages + new.length) ∧
    (∀ (ln : String) (db : DBState) (ml : MLState) (remote : Remote)
       (e : PyErr) (dbe : DBState) (mle : MLState),
      UniqueKeys db.messages → (remote.map Prod.fst).Nodup →
      update ln db ml remote = .error (e, dbe, mle) →
      mle.numMessages = ml.numMessages) := by
  constructor
  · intro ln db ml remote db1 ml1 new fl hU hR h
    exact (update_ok_spec hU hR h).2.1
  · intro ln db ml remote e dbe mle hU hR h
    rw [(update_error_state hU hR h).2]

/-- Counterexample to C10 as stated: on the id-42 mismatch scenario no
counter increment for a "re-fetched repair" ever happens — the run aborts
with `AttributeError` at line 199, and the counter stays at its pre-run
value 1 while the list still holds its single stale record. -/
theorem claim_C10_counterexample :
    update "example-list" db42 ml42 remote42 =
      .error (.attributeError, db42, ml42) ∧
    ml42.numMessages = 1 ∧
    (db42.messages.filter (fun r => r.list == "example-list")).length = 1 :=
  ⟨by decide, rfl, by decide⟩

/-- Witness for C10 at concrete inputs: the completing run of `remoteA`
from the empty store adds 2, and the aborting id-42 run adds 0. -/
theorem claim_C10_message_count_witness :
    mlAfterA.numMessages = mlEmpty.numMessages + [1, 2].length ∧
    ml42.numMessages = ml42.numMessages :=
  ⟨claim_C10_message_count.1 "l" dbEmpty mlEmpty remoteA dbAfterA mlAfterA
     [1, 2] [2] uniqueKeys_nil (by decide) (by decide),
   claim_C10_message_count.2 "example-list" db42 ml42 remote42 .attributeError
     db42 ml42 (uniqueKeys_of_nodup_keys (by decide)) (by decide) (by decide)⟩

/-- C4.  Message normalization is total by construction — every fallible
sub-operation is wrapped in a `try`/`except` that degrades the record — and
the degradations are exactly: an unparsable Date header (`parsedate`
returning `None`) or a raising `mktime`/`fromtimestamp` yields an absent
timestamp; a zero-byte payload decodes to the empty extracted body; a
non-UTF-8 payload byte (here `255`) makes decoding fail and yields the
empty extracted body; a raising `get_body()` yields the empty extracted
body; raising `items()` yields empty headers. -/
theorem claim_C4_total_normalization :
    ∀ (ln : String) (msg_id fid : Nat) (raw : Blob) (gb : Except Unit PyBody)
      (hs : Except Unit (List (String × String))) (aa : Option String)
      (d : Int) (mk : Bool) (cs : Option String) (bs1 bs2 : List Nat),
      ((normalizeMessage ln msg_id fid raw
        { getBody := gb, items := hs, archivedAt := aa, dateParsed := none,
          mktimeFails := mk }).timestamp = none) ∧
      ((normalizeMessage ln msg_id fid raw
        { getBody := gb, items := hs, archivedAt := aa, dateParsed := some d,
          mktimeFails := true }).timestamp = none) ∧
      ((normalizeMessage ln msg_id fid raw
        { getBody := .ok { payload := some [], contentCharset := cs },
          items := hs, archivedAt := aa, dateParsed := some d,
          mktimeFails := mk }).body = "") ∧
      ((normalizeMessage ln msg_id fid raw
        { getBody := .ok { payload := some (bs1 ++ 255 :: bs2),
                           contentCharset := cs },
          items := hs, archivedAt := aa, dateParsed := some d,
          mktimeFails := mk }).body = "") ∧
      ((normalizeMessage ln msg_id fid raw
        { getBody := .error (), items := hs, archivedAt := aa,
          dateParsed := some d, mktimeFails := mk }).body = "") ∧
      ((normalizeMessage ln msg_id fid raw
        { getBody := gb, items := .error (), archivedAt := aa,
          dateParsed := some d, mktimeFails := mk }).headers = []) := by
  intro ln msg_id fid raw gb hs aa d mk cs bs1 bs2
  refine ⟨rfl, rfl, ?_, ?_, rfl, rfl⟩
  · cases cs <;> rfl
  · have hdec : decodeBytes (bs1 ++ 255 :: bs2) = .error () := by
      rw [decodeBytes, if_neg]
      intro hall
      rw [List.all_eq_true] at hall
      have := hall 255 (List.mem_append_right _ (List.mem_cons_self _ _))
      simp at this
    cases cs <;>
      simp [normalizeMessage, cleanEmailText, hdec]

/-- C5.  The point lookup against the store `db7` that caches sequence id 7
of `example-list`: `raw_message` on the absent id 2 raises
`UnboundLocalError` (the local `message` is returned without ever being
assigned) — not a `NotFoundError`, which the code never defines; on the
present id 7 `raw_message` does return the stored bytes; but `message`
always raises `AttributeError` because `_msg_metadata` is never
initialized, so the structured point lookup never returns a `MailMessage`
at all. -/
theorem claim_C5_point_lookup_eval :
    rawMessage db7 "example-list" 2 = .error .unboundLocalError ∧
    rawMessage db7 "example-list" 7 = .ok [104, 105, 10] ∧
    message db7 "example-list" 7 = .error .attributeError := by
  exact ⟨rfl, rfl, rfl⟩

/-- C6.  Resolving the canonical permalink of the cached message of `db7`
through the Archive Facade produces the same outcome as the point lookup by
its sequence id — but that outcome is an `AttributeError` raised by
`MailingList.message` (uninitialized `_msg_metadata`), not the stored
`MailMessage`. -/
theorem claim_C6_archive_url_roundtrip_eval :
    archiveMessageFromUrl archive7
      "https://mailarchive.ietf.org/arch/msg/example-list/abc123" =
      .error .attributeError ∧
    message db7 "example-list" 7 = .error .attributeError ∧
    archiveMessageFromUrl archive7
      "https://mailarchive.ietf.org/arch/msg/example-list/abc123" =
      message db7 "example-list" 7 := by
  exact ⟨rfl, rfl, rfl⟩

theorem cachedLookup_empty (ln : String) (u : Nat) :
    cachedLookup dbEmpty.messages ln u = none :=
  cachedLookup_eq_none_iff.mpr rfl

theorem sizeCheck_empty_cache (ln : String) (remote : Remote) :
    sizeCheck ln (cachedLookup dbEmpty.messages ln) remote dbEmpty =
      .ok (remote.map Prod.fst) := by
  have h := sizeCheck_ok_intro ln (cachedLookup dbEmpty.messages ln) remote
    dbEmpty
    (fun u m cm _ hc => by
      rw [cachedLookup_empty ln u] at hc
      exact Option.noConfusion hc)
  rw [List.filter_eq_self.mpr
    (fun em _ => by simp [uncachedPred, cachedLookup_empty])] at h
  exact h

theorem freshRemote_fst (n : Nat) :
    (freshRemote n).map Prod.fst = List.range n := by
  rw [freshRemote, List.map_map]
  have hcomp : (Prod.fst ∘ fun i : Nat =>
      (i, ({ raw := [], parsed := trivParsed } : RemoteMsg))) = id := rfl
  rw [hcomp, List.map_id]

/-- C7 (amended).  On a run that completes — equivalently, under the
no-size-mismatch condition `hnm`, since a mismatch aborts the run at line
199 — staged upserts are flushed whenever the staged batch exceeds 1000
entries, i.e. in intermediate batches of 1001 per `finalFlushes`, with the
remainder flushed at the end of the run, so every fetched message has a
durably stored record when the run completes. -/
theorem claim_C7_batching (ln : String) (db : DBState) (ml : MLState)
    (remote : Remote) (hU : UniqueKeys db.messages)
    (hR : (remote.map Prod.fst).Nodup)
    (hnm : ∀ u m cm, (u, m) ∈ remote →
      cachedLookup db.messages ln u = some cm → cm.size = m.raw.length) :
    ∃ db' ml' new fl, update ln db ml remote = .ok (db', ml', new, fl) ∧
      fl = finalFlushes new.length ∧
      (∀ u m, (u, m) ∈ remote →
        ∃ r ∈ db'.messages, r.list = ln ∧ r.imap_uid = u ∧
          r.size = m.raw.length) := by
  obtain ⟨db', ml', fl, heq, _, _, hfl, hcov, _, _⟩ :=
    update_spec ln db ml remote hU hR hnm
  exact ⟨db', ml', _, fl, heq, hfl, hcov⟩

/-- Witness for the amended C7 at a concrete input: the two-message
mailbox `remoteA` synchronized into the empty store flushes once, at the
end, with the full remainder of 2. -/
theorem claim_C7_batching_witness :
    ∃ db' ml' new fl, update "l" dbEmpty mlEmpty remoteA = .ok (db', ml', new, fl) ∧
      fl = finalFlushes new.length ∧
      (∀ u m, (u, m) ∈ remoteA →
        ∃ r ∈ db'.messages, r.list = "l" ∧ r.imap_uid = u ∧
          r.size = m.raw.length) :=
  claim_C7_batching "l" dbEmpty mlEmpty remoteA uniqueKeys_nil (by decide)
    (fun u m cm _ hc => by
      rw [cachedLookup_empty "l" u] at hc
      exact Option.noConfusion hc)

set_option maxRecDepth 40000 in
/-- Counterexample to C7 as stated: synchronizing 1001 fresh messages
issues a single `bulk_write` of 1001 staged upserts (the guard is
`len(cache_replaces) > 1000`, which first fires at 1001), not a flush of
1000 followed by a remainder of 1. -/
theorem claim_C7_counterexample :
    (∃ db' ml', update "l" dbEmpty mlEmpty (freshRemote 1001) =
       .ok (db', ml', List.range 1001, [1001])) ∧
    ¬(∃ db' ml', update "l" dbEmpty mlEmpty (freshRemote 1001) =
       .ok (db', ml', List.range 1001, [1000, 1])) := by
  have hR : ((freshRemote 1001).map Prod.fst).Nodup := by
    rw [freshRemote_fst]
    exact List.nodup_range 1001
  obtain ⟨db', ml', fl, heq, _, _, hfl, _, _, _⟩ :=
    update_spec "l" dbEmpty mlEmpty (freshRemote 1001) uniqueKeys_nil hR
      (fun u m cm _ hc => by
        rw [cachedLookup_empty "l" u] at hc
        exact Option.noConfusion hc)
  have hfilter : (freshRemote 1001).filter
      (uncachedPred (cachedLookup dbEmpty.messages "l")) = freshRemote 1001 :=
    List.filter_eq_self.mpr
      (fun em _ => by simp [uncachedPred, cachedLookup_empty])
  rw [hfilter, freshRemote_fst] at heq hfl
  rw [List.length_range] at hfl
  have hval : finalFlushes 1001 = [1001] := by decide
  rw [hval] at hfl
  subst hfl
  constructor
  · exact ⟨db', ml', heq⟩
  · rintro ⟨db2, ml2, h2⟩
    rw [heq] at h2
    injection h2 with h2
    injection h2 with _ h2
    injection h2 with _ h2
    injection h2 with _ h2
    cases h2

/-! ### Lemmas about the archive-URL codec -/

theorem pyFindAux_spec (pat : List Char) :
    ∀ (s : List Char) (i : Nat),
      pyFindAux pat s i = -1 ∨
      ∃ k : Nat, pyFindAux pat s i = ((i : Int) + k) ∧
        pat.isPrefixOf (s.drop k) := by
  intro s
  induction s with
  | nil =>
    intro i
    rw [pyFindAux]
    by_cases hp : pat = []
    · right
      refine ⟨0, by rw [if_pos hp]; simp, ?_⟩
      rw [hp]
      simp [List.isPrefixOf]
    · left
      rw [if_neg hp]
  | cons c t ih =>
    intro i
    rw [pyFindAux]
    by_cases hp : pat.isPrefixOf (c :: t) = true
    · right
      exact ⟨0, by rw [if_pos hp]; simp, by simpa using hp⟩
    · rw [if_neg hp]
      rcases ih (i + 1) with h | ⟨k, hk, hpre⟩
      · left
        exact h
      · right
        refine ⟨k + 1, ?_, ?_⟩
        · rw [hk]
          push_cast
          ring
        · simpa using hpre

theorem pyFind_spec (s pat : List Char) :
    pyFind s pat = -1 ∨
    ∃ k : Nat, pyFind s pat = (k : Int) ∧ pat.isPrefixOf (s.drop k) := by
  rcases pyFindAux_spec pat s 0 with h | ⟨k, hk, hpre⟩
  · left
    exact h
  · right
    exact ⟨k, by simpa using hk, hpre⟩

theorem parseArchiveUrl_short (url : String) (h : url.toList.length ≤ 32) :
    parseArchiveUrl url = ("", "") := by
  have hslice : pySliceFrom url.toList (pyFind url.toList archiveUrlMarker + 33) = [] := by
    rcases pyFind_spec url.toList archiveUrlMarker with hf | ⟨k, hf, hpre⟩
    · rw [hf]
      rw [pySliceFrom, if_pos (by decide)]
      apply List.drop_eq_nil_of_le
      have h32 : ((-1 : Int) + 33).toNat = 32 := by decide
      rw [h32]
      exact h
    · rw [hf]
      have hlen : archiveUrlMarker.length ≤ (url.toList.drop k).length :=
        (List.isPrefixOf_iff_prefix.mp hpre).length_le
      rw [List.length_drop] at hlen
      have h32 : archiveUrlMarker.length = 32 := by decide
      rw [h32] at hlen
      rw [pySliceFrom, if_pos (by omega)]
      apply List.drop_eq_nil_of_le
      have htn : ((k : Int) + 33).toNat = k + 33 := by omega
      rw [htn]
      omega
  simp only [parseArchiveUrl]
  rw [hslice]
  rfl

/-- C8 (amended).  The archive-URL codec is a pure total function: it never
fails.  On an input that does not contain the canonical marker it still
returns a pair of strings computed from the fixed offsets with `find`
returning `-1` — in particular every URL short enough (≤ 32 characters)
that the out-of-range slice is empty parses to `("", "")` — and on a
canonical permalink it returns the `(listName, contentHash)` pair. -/
theorem claim_C8_codec_never_fails :
    (∀ url : String, url.toList.length ≤ 32 → parseArchiveUrl url = ("", "")) ∧
    parseArchiveUrl "https://mailarchive.ietf.org/arch/msg/example-list/abc123" =
      ("example-list", "abc123") :=
  ⟨parseArchiveUrl_short, by decide⟩

/-- Witness for the amended C8 at a concrete input. -/
theorem claim_C8_codec_never_fails_witness : parseArchiveUrl "" = ("", "") :=
  claim_C8_codec_never_fails.1 "" (by decide)

/-- Counterexample to C8 as stated: on a URL that does not contain the
canonical archive path marker, `_parse_archive_url` does not fail with
`MalformedURLError` (no such exception exists anywhere in the repository) —
it returns a pair. -/
theorem claim_C8_counterexample :
    parseArchiveUrl "http://example.com/foo" = ("", "") := by decide

/-- C9.  Every time-range query yields only messages whose stored timestamp
exists and lies strictly between the `since` and `until` bounds: the Mongo
filter uses `$gt`/`$lt`, which a null timestamp (unparsable Date header)
never satisfies.  (`MailingList.messages` in fact never yields anything:
building its first result raises — see `mlMessages` — so its half holds
with an empty yield list; `MailArchive.messages` yields exactly the
strictly-in-range records.) -/
theorem claim_C9_range_queries_strict :
    ∀ (db : DBState) (ln : String) (since until' : Int),
      (∀ msg ∈ (mlMessages db ln since until').1,
        ∃ t, msg.date = some t ∧ since < t ∧ t < until') ∧
      (∀ msg ∈ archiveMessages db since until',
        ∃ t, msg.date = some t ∧ since < t ∧ t < until') := by
  intro db ln since until'
  constructor
  · intro msg hmsg
    rw [mlMessages] at hmsg
    split at hmsg
    · simp at hmsg
    · simp at hmsg
  · intro msg hmsg
    rw [archiveMessages] at hmsg
    obtain ⟨r, hr, hmm⟩ := List.mem_map.mp hmsg
    obtain ⟨_, hts⟩ := List.mem_filter.mp hr
    cases ht : r.timestamp with
    | none =>
      rw [ht] at hts
      simp [tsMatches] at hts
    | some t =>
      rw [ht] at hts
      simp only [tsMatches, Bool.and_eq_true, decide_eq_true_eq] at hts
      refine ⟨t, ?_, hts.1, hts.2⟩
      rw [← hmm]
      show (yieldArchiveMessage r).date = some t
      rw [show (yieldArchiveMessage r).date = r.timestamp from rfl, ht]

/-- Witness for C9 at a concrete input: the in-range message of `db7` is
yielded by the cross-archive query under the widest default bounds, and its
timestamp is strictly inside them. -/
theorem claim_C9_range_queries_strict_witness :
    ∃ t, (yieldArchiveMessage rec7).date = some t ∧
      defaultSince < t ∧ t < defaultUntil :=
  (claim_C9_range_queries_strict db7 "example-list" defaultSince defaultUntil).2
    (yieldArchiveMessage rec7) (by decide)

end IetfData
